import Mathlib

/-!
Verification of the content-extraction and citation subsystems of the
Gist AI research agent (sources: `content_extractor.py`,
`citation_manager.py`).

The Python code is embedded shallowly:

* pure string processing is translated to executable functions on
  `List Char` / `String` (Python's regular-expression calls are compiled
  by hand into character-list scanners that follow the `re` module's
  leftmost, greedy, non-overlapping global-substitution semantics);
* network and HTML-parsing effects (`requests`, `newspaper`, `bs4`,
  `readability`) are passed in explicitly as oracle values describing the
  possible outcomes of those library calls, so a single Lean function
  quantified over the oracle covers every behaviour of the corresponding
  Python method;
* Python exceptions of the modelled methods become `Except`/failure
  constructors; the embedded coordinator functions are total, which is the
  shallow rendering of "never raises".

Several scanners recurse on an explicit fuel argument (always instantiated
with the input length, which bounds the number of loop iterations of the
Python original); this keeps every definition structurally recursive and
hence evaluable by `decide`.
-/

namespace GistAgent

/-- Characters Python's `str.strip()` and the regex class `\s` treat as
whitespace (ASCII fragment of Python's set). -/
def pyIsSpace (c : Char) : Bool :=
  c = ' ' || c = '\t' || c = '\n' || c = '\r' || c = '\x0b' || c = '\x0c'

/-- Python's regex class `\w` (ASCII fragment): letters, digits, underscore. -/
def isWordChar (c : Char) : Bool :=
  c.isAlphanum || c = '_'

/-- ASCII `[A-Z]`. -/
def isUpper (c : Char) : Bool := 'A' ≤ c && c ≤ 'Z'

/-- ASCII `[a-z]`. -/
def isLower (c : Char) : Bool := 'a' ≤ c && c ≤ 'z'

/-- Python `str.strip()` on a character list. -/
def pyStrip (l : List Char) : List Char :=
  ((l.dropWhile pyIsSpace).reverse.dropWhile pyIsSpace).reverse

/-- Python `str.strip()` on a `String`. -/
def stripStr (s : String) : String := ⟨pyStrip s.data⟩

/-- Python `str.lower()` (ASCII fragment). -/
def lowerChar (c : Char) : Char :=
  if isUpper c then Char.ofNat (c.toNat + 32) else c

/-- Python `str.lower()` on a `String` (ASCII fragment). -/
def pyLower (s : String) : String := ⟨s.data.map lowerChar⟩

/-- Python `sep.join(parts)`; the separator is given as its character
list. -/
def joinWith (sep : List Char) : List String → String
  | [] => ""
  | [s] => s
  | s :: rest => s ++ ⟨sep⟩ ++ joinWith sep rest

/-- Scheme characters accepted by `urllib.parse.urlparse`:
letters, digits, `+`, `-`, `.`. -/
def isSchemeChar (c : Char) : Bool :=
  c.isAlpha || c.isDigit || c = '+' || c = '-' || c = '.'

/-- The WHATWG "C0 control or space" set (code points U+0000–U+0020)
that `urlsplit` strips from the left of the URL before parsing. -/
def isC0OrSpace (c : Char) : Bool := c.toNat ≤ 32

/-- `urllib.parse._UNSAFE_URL_BYTES_TO_REMOVE`: tab, CR and LF, removed
EVERYWHERE in the URL by `urlsplit` before parsing. -/
def isUnsafeUrlChar (c : Char) : Bool := c = '\t' || c = '\r' || c = '\n'

/-- The sanitization `urlsplit` applies before parsing (CPython 3.11,
`urllib/parse.py`): `url.lstrip(_WHATWG_C0_CONTROL_OR_SPACE)` followed by
removal of every tab/CR/LF. -/
def sanitizeUrl (url : String) : List Char :=
  (url.data.dropWhile isC0OrSpace).filter (fun c => !(isUnsafeUrlChar c))

/-- Python-style split on a single separator character: every occurrence
splits, empty pieces included (`str.split(sep)`). -/
def splitSep (sep : Char) : List Char → List (List Char)
  | [] => [[]]
  | c :: rest =>
    if c = sep then [] :: splitSep sep rest
    else
      match splitSep sep rest with
      | [] => [[c]]
      | p :: ps => (c :: p) :: ps

/-- The hex-digit set `ipaddress._BaseV6._HEX_DIGITS`
(`string.hexdigits`). -/
def isHexDigitPy (c : Char) : Bool :=
  ('0' ≤ c && c ≤ '9') || ('a' ≤ c && c ≤ 'f') || ('A' ≤ c && c ≤ 'F')

/-- ASCII `[0-9]`: the `octet_str.isascii() and octet_str.isdigit()`
test of `_parse_octet`. -/
def isAsciiDigit (c : Char) : Bool := '0' ≤ c && c ≤ '9'

/-- Decimal value of an ASCII digit list. -/
def decVal (l : List Char) : Nat :=
  l.foldl (fun a c => a * 10 + (c.toNat - 48)) 0

/-- `ipaddress.IPv4Address._parse_octet` as a validity predicate:
nonempty, ASCII digits only, at most 3 characters, no leading zero
(except `"0"` itself), value at most 255. -/
def octetOk (s : List Char) : Bool :=
  !s.isEmpty && s.all isAsciiDigit && s.length ≤ 3 &&
    (s == ['0'] || s.head? != some '0') && decVal s ≤ 255

/-- `ipaddress.IPv4Address._ip_int_from_string` as a validity predicate:
nonempty, exactly four `.`-separated octets, each accepted by
`_parse_octet`.  (The constructor's `'/' in addr_str` rejection is
checked by the caller `checkBracketedHost`; a `/` also fails the octet
digit test.) -/
def ipv4Ok (s : List Char) : Bool :=
  !s.isEmpty &&
    (let os := splitSep '.' s
     os.length == 4 && os.all octetOk)

/-- `ipaddress._BaseV6._parse_hextet` as a validity predicate: hex
digits only, at most 4 of them; the empty string fails its
`int(hextet_str, 16)`. -/
def hextetOk (s : List Char) : Bool :=
  !s.isEmpty && s.all isHexDigitPy && s.length ≤ 4

/-- `ipaddress.IPv6Address._ip_int_from_string` (CPython 3.11) as a
validity predicate: nonempty; split on `:` into at least 3 parts; a
last part containing `.` must parse as an embedded IPv4 address and
stands for two ordinary hextets; at most 9 parts; at most one empty
interior part (the `::` skip); an empty endpoint is only allowed
adjacent to the skip (`^::` / `::$`); with a skip, at most 7 other
parts; without one, exactly 8 nonempty parts; every surviving part a
valid hextet. -/
def ipv6AddrOk (addr : List Char) : Bool :=
  if addr.isEmpty then false
  else
    let parts0 := splitSep ':' addr
    if parts0.length < 3 then false
    else
      let lastP := parts0.getLastD []
      if lastP.contains '.' && !(ipv4Ok lastP) then false
      else
        let parts := if lastP.contains '.' then parts0.dropLast ++ [['0'], ['0']]
          else parts0
        if 9 < parts.length then false
        else
          let interior := (parts.drop 1).dropLast
          let empties := interior.filter List.isEmpty
          if 2 ≤ empties.length then false
          else if empties.length == 1 then
            let skipIdx := 1 + interior.findIdx List.isEmpty
            let headEmpty := (parts.headD [' ']).isEmpty
            let lastEmpty := (parts.getLastD [' ']).isEmpty
            let partsHi := if headEmpty then skipIdx - 1 else skipIdx
            let partsLo :=
              (parts.length - skipIdx - 1) - (if lastEmpty then 1 else 0)
            if headEmpty && partsHi != 0 then false
            else if lastEmpty && partsLo != 0 then false
            else if 8 - (partsHi + partsLo) < 1 then false
            else
              (parts.take partsHi).all hextetOk &&
                (parts.drop (parts.length - partsLo)).all hextetOk
          else
            parts.length == 8 && !(parts.headD [' ']).isEmpty &&
              !(parts.getLastD [' ']).isEmpty && parts.all hextetOk

/-- `re.match(r"\Av[a-fA-F0-9]+\..+\Z", hostname)` as a predicate:
`v`, one or more hex digits (the literal `.` must follow the maximal hex
run, as `.` is not a hex digit), then a nonempty newline-free
remainder. -/
def ipvFutureOk (l : List Char) : Bool :=
  match l with
  | 'v' :: rest =>
    let m := (rest.takeWhile isHexDigitPy).length
    decide (0 < m) &&
      (match rest.drop m with
       | '.' :: tail => !tail.isEmpty && tail.all (fun c => c != '\n')
       | _ => false)
  | _ => false

/-- `urllib.parse._check_bracketed_host` (CPython 3.11) as a validity
predicate on the text between the first `[` and the following `]`: a
host starting with a lowercase `v` must match the IPvFuture pattern;
any other host goes through `ipaddress.ip_address` — a `/` makes both
constructors raise, a valid IPv4 address is explicitly rejected, and
otherwise the host (with an optional nonempty, `%`-free scope id after
the first `%`) must be a valid IPv6 address. -/
def checkBracketedHost (h : List Char) : Bool :=
  match h with
  | 'v' :: _ => ipvFutureOk h
  | _ =>
    if h.contains '/' then false
    else if ipv4Ok h then false
    else
      let addr := h.takeWhile (fun c => c != '%')
      let scope := (h.dropWhile (fun c => c != '%')).drop 1
      if h.contains '%' && (scope.isEmpty || scope.contains '%') then false
      else ipv6AddrOk addr

/-- The text `urlsplit` validates when the netloc has both brackets:
`netloc.partition('[')[2].partition(']')[0]` — everything after the
first `[` and before the next `]` (to the end if none). -/
def bracketedHost (n : List Char) : List Char :=
  ((n.dropWhile (fun c => c != '[')).drop 1).takeWhile (fun c => c != ']')

/-- Two-digit lowercase hex of a byte value. -/
def hex2 (n : Nat) : List Char :=
  let d := fun k => if k < 10 then Char.ofNat (48 + k) else Char.ofNat (87 + k)
  [d (n / 16 % 16), d (n % 16)]

/-- Python `repr` of a string, exact on ASCII text: single quotes unless
the text holds `'` but no `"`; backslash, the chosen quote, tab, LF and
CR get two-character escapes; other C0 controls and DEL become `\xhh`.
(A non-ASCII printable character is kept as is; non-printable non-ASCII
escapes are outside the ASCII scope of this development.) -/
def pyRepr (s : String) : String :=
  let useDouble := s.data.contains '\'' && !(s.data.contains '"')
  let q : Char := if useDouble then '"' else '\''
  let esc := fun (c : Char) =>
    if c = '\\' then ['\\', '\\']
    else if c = q then ['\\', q]
    else if c = '\t' then ['\\', 't']
    else if c = '\n' then ['\\', 'n']
    else if c = '\r' then ['\\', 'r']
    else if c.toNat < 32 || c.toNat = 127 then '\\' :: 'x' :: hex2 c.toNat
    else [c]
  ⟨q :: ((s.data.map esc).flatten ++ [q])⟩

/-- The `ValueError` message `_check_bracketed_host` produces for an
invalid bracketed host: the IPvFuture complaint for hosts starting with
`v`, the brackets complaint for a valid IPv4 address, and otherwise the
`ip_address` factory message built with `repr` of the host. -/
def bracketErrMsg (h : List Char) : String :=
  match h with
  | 'v' :: _ => "IPvFuture address is invalid"
  | _ =>
    if !(h.contains '/') && ipv4Ok h then "An IPv4 address cannot be in brackets"
    else pyRepr ⟨h⟩ ++ " does not appear to be an IPv4 or IPv6 address"

/-- `urllib.parse.urlparse(url).netloc` as CPython 3.11's `urlsplit`
computes it: sanitize (see `sanitizeUrl`); strip a valid `scheme:` part
(first char an ASCII letter, all chars before the first `:` scheme
characters); if the remainder starts with `//`, the netloc is the run up
to the next `/`, `?` or `#` — and `urlsplit` then RAISES
`ValueError("Invalid IPv6 URL")` when that netloc contains `[` without
`]` or `]` without `[`, and rejects an invalid bracketed host (see
`checkBracketedHost`) when it contains both; otherwise the netloc is
empty.  The `Except` error carries the `ValueError` message.
(`_checknetloc`'s NFKC check concerns only non-ASCII netlocs, outside
the ASCII scope of this development.) -/
def netlocE (url : String) : Except String String :=
  let l := sanitizeUrl url
  let rest :=
    match l.findIdx? (fun c => c = ':') with
    | some i =>
      if 0 < i && (l.take i).all isSchemeChar &&
          (match l.head? with | some c => c.isAlpha | none => false) then
        l.drop (i + 1)
      else l
    | none => l
  match rest with
  | '/' :: '/' :: r =>
    let n := r.takeWhile (fun c => !(c = '/' || c = '?' || c = '#'))
    if (n.contains '[' && !(n.contains ']')) ||
        (n.contains ']' && !(n.contains '[')) then
      Except.error "Invalid IPv6 URL"
    else if n.contains '[' && n.contains ']' then
      if checkBracketedHost (bracketedHost n) then Except.ok ⟨n⟩
      else Except.error (bracketErrMsg (bracketedHost n))
    else Except.ok ⟨n⟩
  | _ => Except.ok ""

/-- The netloc value on URLs whose host parses (`""` on the raising
ones); used only to phrase per-URL document values in theorems about
batches, always under a hypothesis that `netlocE` succeeded. -/
def netlocD (url : String) : String :=
  match netlocE url with
  | Except.ok h => h
  | Except.error _ => ""

/-- Index of the last `'.'` in a character list — Python's
`str.rfind('.')`, with `none` standing for Python's `-1`. -/
def rfindPeriod : List Char → Option Nat
  | [] => none
  | c :: rest =>
    match rfindPeriod rest with
    | some i => some (i + 1)
    | none => if c = '.' then some 0 else none

/-- The truncation step of `ContentExtractor._format_result`
(content_extractor.py lines 251–257):

```
if len(content) > max_length:
    content = content[:max_length]
    last_period = content.rfind('.')
    if last_period > max_length * 0.8:
        content = content[:last_period + 1]
    else:
        content = content + "..."
```

The float comparison `last_period > max_length * 0.8` is modelled exactly
by the rational comparison `p > (4/5)·maxLength`, i.e. `5*p > 4*maxLength`
(for the inputs of the concrete theorems below the float product is exact,
so the two comparisons agree).  Python's `rfind` result `-1` (no period)
lands in the `else` branch, matching the `none` case. -/
def truncateContent (content : String) (maxLength : Nat) : String :=
  if maxLength < content.length then
    let c : List Char := content.data.take maxLength
    match rfindPeriod c with
    | some p => if 4 * maxLength < 5 * p then ⟨c.take (p + 1)⟩ else ⟨c⟩ ++ "..."
    | none => ⟨c⟩ ++ "..."
  else content

/-- Sentence terminators of `_generate_summary`: the regex class `[.!?]`. -/
def isTermChar (c : Char) : Bool := c = '.' || c = '!' || c = '?'

/-- Worker for `re.split(r'[.!?]+', s)`: splits at maximal runs of
sentence terminators; adjacent terminators produce no empty pieces, but a
leading or trailing run does.  `fuel` only needs to dominate the input
length (every step consumes at least one character), mirroring the
bounded scan of the regex engine. -/
def splitTermsAux (fuel : Nat) (acc : List Char) (l : List Char) : List String :=
  match fuel with
  | 0 => [⟨acc.reverse⟩]
  | fuel + 1 =>
    match l with
    | [] => [⟨acc.reverse⟩]
    | c :: rest =>
      if isTermChar c then
        ⟨acc.reverse⟩ :: splitTermsAux fuel [] (rest.dropWhile isTermChar)
      else
        splitTermsAux fuel (c :: acc) rest

/-- `re.split(r'[.!?]+', s)` as used by `_generate_summary` (line 230). -/
def splitTerms (s : String) : List String := splitTermsAux s.data.length [] s.data

/-- Python `s.endswith('.')`. -/
def pyEndsWithDot (s : String) : Bool := s.data.getLast? = some '.'

/-- The accumulation loop of `_generate_summary` (lines 231–240): strip
each piece; keep accumulating while the stripped piece is nonempty (a
falsy piece stops the loop) and the running character total stays
strictly under the budget; the first piece failing either test breaks the
loop. -/
def summaryLoop (maxLength : Nat) : List String → Nat → List String
  | [], _ => []
  | s :: rest, currentLength =>
    if stripStr s ≠ "" ∧ currentLength + (stripStr s).length < maxLength then
      stripStr s :: summaryLoop maxLength rest (currentLength + (stripStr s).length)
    else []

/-- `ContentExtractor._generate_summary` (lines 226–246).  The source's
default budget is `max_length = 300`; callers inside the extractor always
use the default, so it is passed explicitly at the call sites below. -/
def generateSummary (content : String) (maxLength : Nat) : String :=
  if content = "" then ""
  else
    let sentences := splitTerms content
    let summary := joinWith ['.', ' '] (summaryLoop maxLength sentences 0)
    if summary ≠ "" ∧ ¬ pyEndsWithDot summary then summary ++ "." else summary

/-- Amended-claim rendering of the summary accumulator: on the list of
already-stripped pieces, take the longest prefix in which every piece is
nonempty and each piece's length stays strictly under the remaining
budget. -/
def budgetTake (budget : Nat) : List String → List String
  | [] => []
  | s :: rest =>
    if s ≠ "" ∧ s.length < budget then s :: budgetTake (budget - s.length) rest
    else []

/-- Amended-claim rendering of `_generate_summary`: split on terminator
runs, strip all pieces, accumulate under the budget stopping at the first
empty piece, join with `". "`, and (the joined pieces never end in a
period) append the trailing period unconditionally when nonempty. -/
def summarySpec (content : String) (maxLength : Nat) : String :=
  if content = "" then ""
  else
    let pieces := (splitTerms content).map stripStr
    let acc := budgetTake maxLength pieces
    if acc = [] then "" else joinWith ['.', ' '] acc ++ "."

/-- Single-space collapsing scanner for `re.sub(r'\s+', ' ', text)`:
every maximal run of whitespace becomes one space.  The flag records
whether the previous emitted character closed a whitespace run. -/
def collapseWsAux (prevSpace : Bool) : List Char → List Char
  | [] => []
  | c :: rest =>
    if pyIsSpace c then
      if prevSpace then collapseWsAux true rest
      else ' ' :: collapseWsAux true rest
    else c :: collapseWsAux false rest

/-- `re.sub(r'\s+', ' ', text)`. -/
def collapseWs (l : List Char) : List Char := collapseWsAux false l

/-- Split a character list at every occurrence of a single separator
character (Python `str.splitlines` for `sep = '\n'`; the model restricts
Python's larger terminator set to `'\n'`, which no claim depends on). -/
def splitChar (sep : Char) (acc : List Char) : List Char → List (List Char)
  | [] => [acc.reverse]
  | c :: rest =>
    if c = sep then acc.reverse :: splitChar sep [] rest
    else splitChar sep (c :: acc) rest

/-- Python `line.split("  ")`: split at each non-overlapping occurrence of
two consecutive spaces, scanning left to right. -/
def splitTwoSpace (acc : List Char) : List Char → List (List Char)
  | [] => [acc.reverse]
  | ' ' :: ' ' :: rest => acc.reverse :: splitTwoSpace [] rest
  | c :: rest => splitTwoSpace (c :: acc) rest

/-- `ContentExtractor._clean_text` (lines 216–224): strip every line,
split lines at double spaces, strip the chunks, join the truthy chunks
with single spaces, then collapse whitespace runs.  The source's final
`re.sub(r'\n\s*\n', '\n', text)` can never fire (the previous substitution
already replaced every whitespace character by a single space), so it is
modelled as the identity it is; the trailing `strip` is kept. -/
def cleanText (text : String) : String :=
  let lines := (splitChar '\n' [] text.data).map pyStrip
  let chunks := (lines.flatMap (fun l => splitTwoSpace [] l)).map pyStrip
  let joined := joinWith [' '] ((chunks.filter (fun c => c ≠ [])).map (fun l => (⟨l⟩ : String)))
  stripStr ⟨collapseWs joined.data⟩

/-- The `{author, publish_date, domain}` triple built by
`_extract_metadata_from_html` before a strategy adds its
`extraction_method`. -/
structure MetadataBase where
  author : String
  publishDate : Option String
deriving DecidableEq, Repr

/-- Outcome of the author/date selector scans of
`_extract_metadata_from_html` (lines 169–212) on the fetched markup:
`authorSel` is the author value produced by the first matching author
selector (`none` when no selector matches, in which case the author stays
`"Unknown"`); `dateSel` is the final `publish_date` value produced by the
date-selector block (selector text, ISO-parsed or kept verbatim),
`none` when no selector matches or the matched string is empty.  The
`domain` entry of the metadata dictionary is not part of the oracle: the
source assigns it from `urlparse(url).netloc` unconditionally. -/
structure MetaOracle where
  authorSel : Option String
  dateSel : Option String
deriving DecidableEq, Repr

/-- `ContentExtractor._extract_metadata_from_html`, author/date part; the
caller combines it with the fixed `domain` assignment (line 166). -/
def extractMetadataFromHtml (o : MetaOracle) : MetadataBase :=
  { author := match o.authorSel with | some a => a | none => "Unknown"
    publishDate := o.dateSel }

/-- The `metadata` dictionary of an extraction result. -/
structure Metadata where
  author : String
  publishDate : Option String
  domain : String
  extractionMethod : String
  error : Option String
deriving DecidableEq, Repr

/-- The dictionary returned by one extraction strategy (title, summary,
content, metadata). -/
structure StrategyResult where
  title : String
  summary : String
  content : String
  metadata : Metadata
deriving DecidableEq, Repr

/-- The `source_info` block of the final result (line 265–269). -/
structure SourceInfo where
  link : String
  website : String
  extractionTimestamp : String
deriving DecidableEq, Repr

/-- The dictionary returned by `extract_content` for one URL. -/
structure ResultDoc where
  url : String
  title : String
  summary : String
  content : String
  metadata : Metadata
  sourceInfo : SourceInfo
deriving DecidableEq, Repr

/-- Oracle for one `newspaper.Article` download/parse: the fields the
source reads (`title`, `summary`, `text`, `authors`, `publish_date`,
already rendered to ISO when present).  `newspaper` reports a missing
title/summary/text as an empty string, which the source's `or` treats as
falsy. -/
structure NewspaperArticle where
  title : String
  summary : String
  text : String
  authors : List String
  publishDate : Option String
deriving DecidableEq, Repr

/-- `ContentExtractor._extract_with_newspaper` (lines 55–74): `none`
models any exception from download/parse (caught, logged and turned into
`None`); on success the result dictionary is built exactly as in lines
61–71.  `host` is `urlparse(url).netloc` (line 68); on URLs where that
call raises instead, the strategy's own `except` turns the `ValueError`
into `None` — that case is handled in `extractContent`, which only calls
this function with a successfully parsed host. -/
def extractWithNewspaper (host : String) (o : Option NewspaperArticle) :
    Option StrategyResult :=
  o.map fun a =>
    { title := if a.title = "" then "No title found" else a.title
      summary := a.summary
      content := a.text
      metadata :=
        { author := if a.authors = [] then "Unknown"
                    else joinWith [',', ' '] a.authors
          publishDate := a.publishDate
          domain := host
          extractionMethod := "newspaper3k"
          error := none } }

/-- Oracle for one readability-lxml extraction: `docTitle` is
`Document(response.text).title()` (empty string when falsy), and
`cleanContent` is the text BeautifulSoup recovers from `doc.summary()`. -/
structure ReadabilityPage where
  docTitle : String
  cleanContent : String
  meta : MetaOracle
deriving DecidableEq, Repr

/-- `ContentExtractor._extract_with_readability` (lines 76–101): `none`
models any exception (network error, non-2xx status raised by
`raise_for_status`, parse failure); on success the dictionary of lines
90–98.  `host` is `urlparse(url).netloc` (line 166, reached through the
`_extract_metadata_from_html` call at line 88); on URLs where that call
raises, the strategy's `except` yields `None` — handled in
`extractContent`. -/
def extractWithReadability (host : String) (o : Option ReadabilityPage) :
    Option StrategyResult :=
  o.map fun p =>
    let md := extractMetadataFromHtml p.meta
    { title := if p.docTitle = "" then "No title found" else p.docTitle
      summary := generateSummary p.cleanContent 300
      content := p.cleanContent
      metadata :=
        { author := md.author
          publishDate := md.publishDate
          domain := host
          extractionMethod := "readability-lxml"
          error := none } }

/-- Oracle for the BeautifulSoup strategy's successful fetch+parse:
`pageTitle` is the raw text of the `<title>` tag (`none` when the tag is
absent), `selectedContent` the text of the first matching content
selector (`none` when no selector matches), `bodyText` the fallback text
of `<body>` (or of the whole document when `<body>` is absent). -/
structure BsPage where
  pageTitle : Option String
  selectedContent : Option String
  bodyText : String
  meta : MetaOracle
deriving DecidableEq, Repr

/-- Outcome of `_extract_with_beautifulsoup`'s fetch/parse: a page, or
the message of the caught exception. -/
inductive BsOutcome where
  | ok (page : BsPage)
  | err (msg : String)
deriving DecidableEq, Repr

/-- `ContentExtractor._extract_with_beautifulsoup` (lines 103–158).  This
strategy never returns `None`: on an exception it builds the failure
dictionary of lines 147–158 (title `"Extraction Failed"`, empty content,
`extraction_method = "beautifulsoup_failed"`, the error message kept).
`host` is `urlparse(url).netloc` (line 166 on the success path, line 154
in the failure dictionary); on URLs where that call raises, BOTH paths
raise — the success path's metadata call throws into the `except`
handler, whose own failure dictionary throws again, and the `ValueError`
escapes this method — a case handled in `extractContent`. -/
def extractWithBeautifulsoup (host : String) (o : BsOutcome) : StrategyResult :=
  match o with
  | .ok p =>
    let title := match p.pageTitle with
      | some t => stripStr t
      | none => "No title found"
    let raw := match p.selectedContent with
      | some c => if c = "" then p.bodyText else c
      | none => p.bodyText
    let content := cleanText raw
    let md := extractMetadataFromHtml p.meta
    { title := title
      summary := generateSummary content 300
      content := content
      metadata :=
        { author := md.author
          publishDate := md.publishDate
          domain := host
          extractionMethod := "beautifulsoup"
          error := none } }
  | .err msg =>
    { title := "Extraction Failed"
      summary := "Could not extract content: " ++ msg
      content := ""
      metadata :=
        { author := "Unknown"
          publishDate := none
          domain := host
          extractionMethod := "beautifulsoup_failed"
          error := some msg } }

/-- Everything one call of `extract_content` can observe from the outside
world for a fixed URL: the three strategies' library outcomes and the
wall-clock timestamp read at formatting time. -/
structure ExtractOracle where
  newspaper : Option NewspaperArticle
  readability : Option ReadabilityPage
  bs : BsOutcome
  now : String
deriving DecidableEq, Repr

/-- `ContentExtractor._format_result` (lines 248–270): sentence-aware
truncation of the content, then the final result dictionary.  `host` is
`urlparse(url).netloc` (line 267); `_format_result` is only reached after
a strategy succeeded, which requires that call not to raise. -/
def formatResult (result : StrategyResult) (url host : String)
    (maxLength : Nat) (now : String) : ResultDoc :=
  { url := url
    title := result.title
    summary := result.summary
    content := truncateContent result.content maxLength
    metadata := result.metadata
    sourceInfo :=
      { link := url
        website := host
        extractionTimestamp := now } }

/-- The readability / BeautifulSoup tail of `extract_content`'s cascade
(lines 28–33), on a URL whose host parsed. -/
def extractContentFallback (url host : String) (o : ExtractOracle)
    (maxLength : Nat) : ResultDoc :=
  match extractWithReadability host o.readability with
  | some r =>
    if r.content ≠ "" then formatResult r url host maxLength o.now
    else formatResult (extractWithBeautifulsoup host o.bs) url host maxLength o.now
  | none => formatResult (extractWithBeautifulsoup host o.bs) url host maxLength o.now

/-- The body of `ContentExtractor.extract_content` (lines 21–53) on a URL
whose host parsed: try newspaper, then readability (each skipped unless
it returned a dictionary with truthy content), then BeautifulSoup, and
format the first hit. -/
def extractContentCore (url host : String) (o : ExtractOracle)
    (maxLength : Nat) : ResultDoc :=
  match extractWithNewspaper host o.newspaper with
  | some r =>
    if r.content ≠ "" then formatResult r url host maxLength o.now
    else extractContentFallback url host o maxLength
  | none => extractContentFallback url host o maxLength

/-- `ContentExtractor.extract_content` (lines 21–53).  When
`urlparse(url).netloc` parses, every strategy and the formatter observe
that same host value and the call returns one document — no exception
escapes, since all three strategies catch their own and the formatting
step is pure.  When `urlparse` raises (`netlocE` errors), the call
RAISES `ValueError` for every oracle: newspaper and readability swallow
their copies of the error and return `None` (lines 68/166 inside their
`try` blocks), but `_extract_with_beautifulsoup`'s `except` handler
itself evaluates `urlparse(url).netloc` (line 154) and throws; the outer
`except` (line 35) catches that, and its own failure dictionary
evaluates `urlparse(url).netloc` again (line 44), re-raising the
`ValueError`, which escapes `extract_content` — so the
`"Content Extraction Failed"` dictionary of lines 36–53 is never
completed on this path either.  The source's default is
`max_length = 5000`. -/
def extractContent (url : String) (o : ExtractOracle) (maxLength : Nat) :
    Except String ResultDoc :=
  match netlocE url with
  | Except.error e => Except.error e
  | Except.ok host => Except.ok (extractContentCore url host o maxLength)

/-- Ordered-dictionary lookup (`d[k]` / `k in d` on a Python `dict`,
represented as an insertion-ordered association list with unique keys). -/
def dictGet {α : Type} (d : List (String × α)) (k : String) : Option α :=
  match d.find? (fun p => p.1 = k) with
  | some p => some p.2
  | none => none

/-- Ordered-dictionary assignment `d[k] = v`: update in place when the
key exists (keeping its position), else append. -/
def dictInsert {α : Type} (d : List (String × α)) (k : String) (v : α) :
    List (String × α) :=
  if d.any (fun p => p.1 = k) then
    d.map (fun p => if p.1 = k then (k, v) else p)
  else d ++ [(k, v)]

/-- Worker for `extract_multiple_urls`: the sequential loop of lines
275–278.  There is no `try` around the `extract_content` call, so a URL
on which it raises aborts the whole loop (the `Except.error` case),
discarding the results accumulated so far. -/
def extractMultipleUrlsAux (env : String → ExtractOracle)
    (maxLengthPerUrl : Nat) (acc : List (String × ResultDoc)) :
    List String → Except String (List (String × ResultDoc))
  | [] => Except.ok acc
  | url :: rest =>
    match extractContent url (env url) maxLengthPerUrl with
    | Except.error e => Except.error e
    | Except.ok doc =>
      extractMultipleUrlsAux env maxLengthPerUrl (dictInsert acc url doc) rest

/-- `ContentExtractor.extract_multiple_urls` (lines 272–280): sequential
loop storing `extract_content(url, max_length_per_url)` under each URL
(the politeness `time.sleep(1)` has no observable effect in the model).
`env` supplies the per-URL oracle.  The source's default is
`max_length_per_url = 3000`. -/
def extractMultipleUrls (urls : List String) (env : String → ExtractOracle)
    (maxLengthPerUrl : Nat) : Except String (List (String × ResultDoc)) :=
  extractMultipleUrlsAux env maxLengthPerUrl [] urls

/-- Decidable equality on `Except`, for evaluating concrete outcomes of
the fallible operations. -/
instance {ε α : Type} [DecidableEq ε] [DecidableEq α] :
    DecidableEq (Except ε α) := fun a b =>
  match a, b with
  | Except.ok x, Except.ok y =>
    if h : x = y then Decidable.isTrue (by rw [h])
    else Decidable.isFalse (fun hc => h (Except.ok.inj hc))
  | Except.ok _, Except.error _ =>
    Decidable.isFalse (fun hc => Except.noConfusion hc)
  | Except.error _, Except.ok _ =>
    Decidable.isFalse (fun hc => Except.noConfusion hc)
  | Except.error e, Except.error f =>
    if h : e = f then Decidable.isTrue (by rw [h])
    else Decidable.isFalse (fun hc => h (Except.error.inj hc))

/-- Whether a fallible computation returned normally (`True`) or raised
(`False`). -/
def exceptOk {ε α : Type} : Except ε α → Bool
  | Except.ok _ => true
  | Except.error _ => false

/-- The document `extract_content` returned, `none` when it raised. -/
def extractedDoc (r : Except String ResultDoc) : Option ResultDoc :=
  match r with
  | Except.ok d => some d
  | Except.error _ => none

/-- The message of the exception `extract_content` raised, `none` when it
returned normally. -/
def extractionError (r : Except String ResultDoc) : Option String :=
  match r with
  | Except.ok _ => none
  | Except.error e => some e

/-! ## Citation manager (`citation_manager.py`) -/

/-- A registered source (`SourceMetadata` dataclass, lines 15–27).  The
`access_date` is always passed as the creation-time clock string by
`add_source`, so the `__post_init__` default never fires. -/
structure SourceMetadata where
  url : String
  title : String
  author : String
  publishDate : Option String
  domain : String
  accessDate : String
  contentType : String
deriving DecidableEq, Repr

/-- A `Citation` (lines 29–35).  The Python field `section` is rendered
as `sect` (`section` is a Lean keyword); `confidence` is a Python float
defaulting to `1.0`, modelled as a rational — no claim depends on float
rounding. -/
structure Citation where
  source : SourceMetadata
  quote : Option String
  pageNumber : Option String
  sect : Option String
  confidence : ℚ
deriving DecidableEq, Repr

/-- The closed `CitationStyle` enumeration (lines 8–13). -/
inductive CitationStyle where
  | apa | mla | chicago | harvard | ieee
deriving DecidableEq, Repr

/-- `CitationManager` state: the insertion-ordered `sources` dict and the
`citations` list (lines 39–41). -/
structure Manager where
  sources : List (String × SourceMetadata)
  citations : List Citation
deriving DecidableEq, Repr

/-- A fresh `CitationManager()`. -/
def emptyManager : Manager := ⟨[], []⟩

/-- `str(d)` decimal digit to character. -/
def digitChar (d : Nat) : Char := Char.ofNat (48 + d)

/-- Little-endian base-10 digits with structural fuel (`fuel ≥ n`
guarantees the full expansion). -/
def decDigits (fuel n : Nat) : List Nat :=
  match fuel, n with
  | 0, _ => []
  | _, 0 => []
  | fuel + 1, n + 1 => ((n + 1) % 10) :: decDigits fuel ((n + 1) / 10)

/-- Python `str(n)` for a natural number. -/
def natRepr (n : Nat) : String :=
  if n = 0 then "0" else ⟨((decDigits n n).map digitChar).reverse⟩

/-- The candidate identifiers tried by `_generate_source_id`'s while
loop: the base id itself, then `base_1`, `base_2`, … (f-string
`f"{original_id}_{counter}"`, line 178). -/
def candidateId (base : String) : Nat → String
  | 0 => base
  | n + 1 => base ++ "_" ++ natRepr (n + 1)

/-- The while loop of `_generate_source_id` (lines 175–179): starting at
candidate `start`, return the first index whose candidate is not yet a
key.  The Python loop is unbounded; `taken.length + 1` candidates always
suffice because the candidates are pairwise distinct (proved below), so
the fuelled version agrees with it. -/
def freeFrom (base : String) (taken : List String) (fuel start : Nat) : Nat :=
  match fuel with
  | 0 => start
  | fuel + 1 =>
    if taken.contains (candidateId base start) then
      freeFrom base taken fuel (start + 1)
    else start

/-- First free identifier for `base` given the currently taken keys. -/
def firstFreeId (base : String) (taken : List String) : String :=
  candidateId base (freeFrom base taken (taken.length + 1) 0)

/-- Python `host.replace("www.", "")` (line 171): removes EVERY
non-overlapping occurrence of `"www."`, scanning left to right — not just
a leading one. -/
def replaceWwwAll : List Char → List Char
  | 'w' :: 'w' :: 'w' :: '.' :: rest => replaceWwwAll rest
  | c :: rest => c :: replaceWwwAll rest
  | [] => []

/-- Python `str.split()` (no separator): split on whitespace runs,
producing no empty tokens. -/
def splitWsAux (fuel : Nat) (l : List Char) : List String :=
  match fuel with
  | 0 => []
  | fuel + 1 =>
    match l with
    | [] => []
    | c :: rest =>
      if pyIsSpace c then splitWsAux fuel rest
      else
        ⟨(c :: rest).takeWhile (fun x => !(pyIsSpace x))⟩ ::
          splitWsAux fuel ((c :: rest).dropWhile (fun x => !(pyIsSpace x)))

/-- `re.sub(r'[^\w\s]', '', title.lower()).split()[:3]` (line 172): the
first three whitespace-separated tokens of the lower-cased,
punctuation-stripped title. -/
def slugWords (title : String) : List String :=
  let cleaned := (pyLower title).data.filter (fun c => isWordChar c || pyIsSpace c)
  (splitWsAux cleaned.length cleaned).take 3

/-- The base identifier computed by `_generate_source_id` (lines
171–173): the host with every `"www."` occurrence removed, `"_"`, and the
three-token title slug. -/
def codeBaseId (host title : String) : String :=
  (⟨replaceWwwAll host.data⟩ : String) ++ "_" ++
    joinWith ['_'] (slugWords title)

/-- `CitationManager._generate_source_id` (lines 170–181).  `host` is the
`urlparse(url).netloc` recomputed at line 171; `add_source` only reaches
this call after its own `urlparse(url).netloc` at line 45 succeeded, and
`urlparse` is deterministic, so the recomputation returns the same value
and cannot raise here. -/
def generateSourceId (takenKeys : List String) (host title : String) : String :=
  firstFreeId (codeBaseId host title) takenKeys

/-- `CitationManager.add_source` (lines 43–59).  Line 45 evaluates
`urlparse(url).netloc` first: on URLs where that raises, `add_source`
raises the `ValueError` (the `Except.error` case) with nothing mutated —
the registry and citation list are untouched.  The Python defaults are
`author = "Unknown"`, `publish_date = None`, `content_type = "webpage"`;
`now` is the `datetime.now().strftime("%Y-%m-%d")` clock string. -/
def addSource (m : Manager) (url title author : String)
    (publishDate : Option String) (contentType : String) (now : String) :
    Except String (Manager × String) :=
  match netlocE url with
  | Except.error e => Except.error e
  | Except.ok domain =>
    let sid := generateSourceId (m.sources.map Prod.fst) domain title
    let md : SourceMetadata :=
      { url := url, title := title, author := author, publishDate := publishDate
        domain := domain, accessDate := now, contentType := contentType }
    Except.ok ({ m with sources := dictInsert m.sources sid md }, sid)

/-- The id `add_source` returns, `none` when it raises. -/
def addSourceId (m : Manager) (url title author : String)
    (publishDate : Option String) (contentType : String) (now : String) :
    Option String :=
  match addSource m url title author publishDate contentType now with
  | Except.ok p => some p.2
  | Except.error _ => none

/-- Total unwrapper used to chain `add_source` calls on the concrete,
well-formed URLs of the examples below (where the `Except.error` branch
is never taken); an erroring call leaves the manager unchanged, matching
the source, where the raise precedes any mutation. -/
def addSourceBang (m : Manager) (url title author : String)
    (publishDate : Option String) (contentType : String) (now : String) :
    Manager × String :=
  match addSource m url title author publishDate contentType now with
  | Except.ok p => p
  | Except.error _ => (m, "")

/-- One recorded `add_source` call, for reasoning about arbitrary
registration sequences. -/
structure AddOp where
  url : String
  title : String
  author : String
  publishDate : Option String
  contentType : String
  now : String
deriving DecidableEq, Repr

/-- The registry state after a sequence of attempted `add_source` calls
on a fresh manager; a call that raises (unparseable host) leaves the
state unchanged, exactly as in the source, where the raise happens
before any mutation. -/
def applyAddSources (ops : List AddOp) : Manager :=
  ops.foldl (fun m op =>
    (addSourceBang m op.url op.title op.author op.publishDate op.contentType
      op.now).1)
    emptyManager

/-- `CitationManager.add_citation` (lines 61–76): `ValueError` on an
unknown source id (modelled as `Except.error` with the exception's
message), leaving the manager unchanged; otherwise append the new
citation. -/
def addCitation (m : Manager) (sourceId : String)
    (quote pageNumber sect : Option String) (confidence : ℚ) :
    Except String Citation × Manager :=
  match dictGet m.sources sourceId with
  | none => (Except.error ("Source " ++ sourceId ++ " not found"), m)
  | some src =>
    let c : Citation := ⟨src, quote, pageNumber, sect, confidence⟩
    (Except.ok c, { m with citations := m.citations ++ [c] })

/-- `CitationManager._extract_year` regex scan
(`re.search(r'\b(19|20)\d{2}\b', ...)`, lines 183–191): leftmost
four-digit match starting `19`/`20` with word boundaries on both sides;
`prev` carries the character before the current position. -/
def findYearFrom (prev : Option Char) : List Char → Option String
  | a :: b :: c :: d :: rest =>
    if (match prev with | none => true | some p => !(isWordChar p)) &&
        ((a = '1' && b = '9') || (a = '2' && b = '0')) &&
        c.isDigit && d.isDigit &&
        (match rest with | [] => true | e :: _ => !(isWordChar e)) then
      some ⟨[a, b, c, d]⟩
    else findYearFrom (some a) (b :: c :: d :: rest)
  | _ => none

/-- `CitationManager._extract_year`: `None`/empty date strings yield
`None` (Python falsy test), otherwise the regex search above. -/
def extractYear (dateString : Option String) : Option String :=
  match dateString with
  | none => none
  | some s => if s = "" then none else findYearFrom none s.data

/-! ### `_clean_title`'s regex-substitution chain (lines 193–213) -/

/-- `re.sub(r'\.\w+[-\w]*\s*', '', title)`: at each dot followed by a
word character, greedily drop the maximal run of word/hyphen characters
and any following whitespace.  Fuel dominates the input length. -/
def rule1Aux (fuel : Nat) (l : List Char) : List Char :=
  match fuel with
  | 0 => l
  | fuel + 1 =>
    match l with
    | [] => []
    | '.' :: c :: rest =>
      if isWordChar c then
        rule1Aux fuel
          (((c :: rest).dropWhile (fun x => isWordChar x || x = '-')).dropWhile pyIsSpace)
      else '.' :: rule1Aux fuel (c :: rest)
    | c :: rest => c :: rule1Aux fuel rest

/-- Parse `[A-Z][a-z]+` at the head, returning the rest.  The greedy
lowercase run needs no backtracking: the character that ends a maximal
lowercase run can never satisfy the pattern element that follows it. -/
def parseCapWord : List Char → Option (List Char)
  | c :: rest =>
    if isUpper c then
      match rest.takeWhile isLower with
      | [] => none
      | _ :: _ => some (rest.dropWhile isLower)
    else none
  | [] => none

/-- A `\b` boundary holds after a word character at this position. -/
def boundaryOk : List Char → Bool
  | [] => true
  | c :: _ => !(isWordChar c)

/-- Parse one `\s+[A-Z][a-z]+` repetition unit. -/
def parseOneUnit (l : List Char) : Option (List Char) :=
  match l.takeWhile pyIsSpace with
  | [] => none
  | _ :: _ => parseCapWord (l.dropWhile pyIsSpace)

/-- Greedy-with-backtracking end of `(?:\s+[A-Z][a-z]+)*\b`: prefer the
longest chain of units whose end satisfies the trailing `\b`, falling
back unit by unit exactly as the `re` engine does. -/
def pickEnd (fuel : Nat) (l : List Char) : Option (List Char) :=
  match fuel with
  | 0 => if boundaryOk l then some l else none
  | fuel + 1 =>
    match parseOneUnit l with
    | some l' =>
      match pickEnd fuel l' with
      | some e => some e
      | none => if boundaryOk l then some l else none
    | none => if boundaryOk l then some l else none

/-- Match `\b[A-Z][a-z]+-[A-Z][a-z]+(?:\s+[A-Z][a-z]+)*\b` at the current
position (`prevIsWord` encodes the leading boundary), returning the text
after the match. -/
def rule2MatchEnd (prevIsWord : Bool) (l : List Char) : Option (List Char) :=
  if prevIsWord then none
  else
    match parseCapWord l with
    | some ('-' :: l2) =>
      match parseCapWord l2 with
      | some l3 => pickEnd l3.length l3
      | none => none
    | _ => none

/-- Global substitution scanner for the second rule,
`re.sub(r'\b[A-Z][a-z]+-[A-Z][a-z]+(?:\s+[A-Z][a-z]+)*\b', '', ·)`. -/
def rule2Aux (fuel : Nat) (prevIsWord : Bool) (l : List Char) : List Char :=
  match fuel with
  | 0 => l
  | fuel + 1 =>
    match l with
    | [] => []
    | c :: rest =>
      match rule2MatchEnd prevIsWord l with
      | some e => rule2Aux fuel true e
      | none => c :: rule2Aux fuel (isWordChar c) rest

/-- `re.sub(r'--[a-zA-Z-]+', '', ·)`: drop each `--` followed by a
maximal nonempty run of letters/hyphens. -/
def rule3Aux (fuel : Nat) (l : List Char) : List Char :=
  match fuel with
  | 0 => l
  | fuel + 1 =>
    match l with
    | '-' :: '-' :: c :: rest =>
      if isLower c || isUpper c || c = '-' then
        rule3Aux fuel ((c :: rest).dropWhile (fun x => isLower x || isUpper x || x = '-'))
      else '-' :: rule3Aux fuel ('-' :: c :: rest)
    | c :: rest => c :: rule3Aux fuel rest
    | [] => []

/-- The fixed CSS/layout vocabulary of the fourth rule (line 203). -/
def cssKeywords : List (List Char) :=
  ["Align".data, "Display".data, "Flex".data, "Gap".data, "Var".data,
   "Font".data, "Size".data, "Weight".data, "Line".data, "Height".data,
   "Media".data, "Min".data, "Width".data, "Show".data, "Seperator".data,
   "Block".data]

/-- `k` is a prefix of `l`. -/
def listStarts : List Char → List Char → Bool
  | [], _ => true
  | _ :: _, [] => false
  | a :: as, b :: bs => a = b && listStarts as bs

/-- `re.sub(r'\b(Align|…|Block)\b', '', ·)`: no keyword is a prefix of
another, so at most one alternative can match at a position; it is
removed when both boundaries hold. -/
def rule4Aux (fuel : Nat) (prevIsWord : Bool) (l : List Char) : List Char :=
  match fuel with
  | 0 => l
  | fuel + 1 =>
    match l with
    | [] => []
    | c :: rest =>
      if prevIsWord then c :: rule4Aux fuel (isWordChar c) rest
      else
        match cssKeywords.find? (fun k => listStarts k l) with
        | some k =>
          let e := l.drop k.length
          if boundaryOk e then rule4Aux fuel true e
          else c :: rule4Aux fuel (isWordChar c) rest
        | none => c :: rule4Aux fuel (isWordChar c) rest

/-- Index of the LAST character satisfying `p`. -/
def lastIdxOf (p : Char → Bool) (l : List Char) : Option Nat :=
  match l.reverse.findIdx? p with
  | some r => some (l.length - 1 - r)
  | none => none

/-- Match of `([A-Z][^.]*[.!?])` starting at an upper-case character `c`
followed by `rest`: `[^.]*` is greedy, so the match runs to the first
`'.'` after the start when one exists, otherwise (after backtracking) to
the last `'!'`/`'?'`; `none` when no terminator follows. -/
def fragMatchFrom (c : Char) (rest : List Char) : Option (List Char) :=
  match rest.findIdx? (fun x => x = '.') with
  | some p => some (c :: rest.take (p + 1))
  | none =>
    match lastIdxOf (fun x => x = '!' || x = '?') rest with
    | some k => some (c :: rest.take (k + 1))
    | none => none

/-- `re.search(r'([A-Z][^.]*[.!?])', ·)`: leftmost starting position that
admits a match. -/
def searchFrag : List Char → Option (List Char)
  | [] => none
  | c :: rest =>
    if isUpper c then
      match fragMatchFrom c rest with
      | some m => some m
      | none => searchFrag rest
    else searchFrag rest

/-- The four substitution rules of `_clean_title` followed by whitespace
collapapse and strip (lines 197–206). -/
def cleanRules (title : String) : String :=
  let t1 := rule1Aux title.data.length title.data
  let t2 := rule2Aux t1.length false t1
  let t3 := rule3Aux t2.length t2
  let t4 := rule4Aux t3.length false t3
  stripStr ⟨collapseWs t4⟩

/-- `CitationManager._clean_title` (lines 193–213).  Note line 209: the
under-10-characters recovery searches the CLEANED title (the variable
`title` has been reassigned by the substitutions), not the original. -/
def cleanTitle (title : String) : String :=
  if title = "" then title
  else
    let t := cleanRules title
    if t.length < 10 then
      match searchFrag t.data with
      | some m => ⟨m⟩
      | none => t
    else t

/-- Claim C8's reading of `_clean_title`: identical rules, but the
recovery searches the ORIGINAL (pre-cleanup) title. -/
def cleanTitleClaim (title : String) : String :=
  if title = "" then title
  else
    let t := cleanRules title
    if t.length < 10 then
      match searchFrag title.data with
      | some m => ⟨m⟩
      | none => t
    else t

/-! ### Citation formatting (lines 78–141, 215–325) -/

/-- `CitationManager._format_apa_citation` (lines 215–239). -/
def formatApaCitation (source : SourceMetadata) : String :=
  let cleanT := cleanTitle source.title
  let p1 := if source.author ≠ "Unknown" then source.author else cleanT
  let p2 := match extractYear source.publishDate with
    | some y => "(" ++ y ++ ")"
    | none => "(n.d.)"
  let p3 := if source.author ≠ "Unknown" then cleanT ++ "."
            else "Retrieved from " ++ source.url
  let parts := [p1, p2, p3] ++
    (if source.author ≠ "Unknown" then
      ["Retrieved " ++ source.accessDate ++ " from " ++ source.url]
     else [])
  joinWith [' '] parts

/-- `CitationManager._format_mla_citation` (lines 241–259). -/
def formatMlaCitation (source : SourceMetadata) : String :=
  let cleanT := cleanTitle source.title
  let parts :=
    (if source.author ≠ "Unknown" then [source.author] else []) ++
    ["\"" ++ cleanT ++ ".\""] ++
    [source.domain ++ ","] ++
    (match extractYear source.publishDate with
     | some y => [y ++ ","]
     | none => []) ++
    [source.accessDate ++ ", " ++ source.url ++ "."]
  joinWith [' '] parts

/-- `CitationManager._format_chicago_citation` (lines 261–281). -/
def formatChicagoCitation (source : SourceMetadata) : String :=
  let cleanT := cleanTitle source.title
  let parts :=
    [if source.author ≠ "Unknown" then source.author else source.domain] ++
    ["\"" ++ cleanT ++ ".\""] ++
    [source.domain ++ "."] ++
    (match extractYear source.publishDate with
     | some y => ["Last modified " ++ y ++ "."]
     | none => []) ++
    ["Accessed " ++ source.accessDate ++ ". " ++ source.url ++ "."]
  joinWith [' '] parts

/-- `CitationManager._format_harvard_citation` (lines 283–303). -/
def formatHarvardCitation (source : SourceMetadata) : String :=
  let cleanT := cleanTitle source.title
  let parts :=
    [if source.author ≠ "Unknown" then source.author else source.domain] ++
    [match extractYear source.publishDate with
     | some y => y
     | none => "n.d."] ++
    [cleanT ++ "."] ++
    ["Available at: " ++ source.url ++ " (Accessed: " ++ source.accessDate ++ ")"]
  joinWith [' '] parts

/-- `CitationManager._format_ieee_citation` (lines 305–325). -/
def formatIeeeCitation (source : SourceMetadata) : String :=
  let cleanT := cleanTitle source.title
  let parts :=
    [if source.author ≠ "Unknown" then source.author else source.domain] ++
    ["\"" ++ cleanT ++ ",\""] ++
    [source.domain ++ "."] ++
    (match extractYear source.publishDate with
     | some y => [y ++ "."]
     | none => []) ++
    ["[Online]. Available: " ++ source.url]
  joinWith [' '] parts

/-- `CitationManager.format_citation` (lines 78–95): sentinel string on
an unknown id, otherwise style dispatch (the Python `else` fallback to
APA is unreachable — the enum is closed). -/
def formatCitation (sources : List (String × SourceMetadata))
    (sourceId : String) (style : CitationStyle) : String :=
  match dictGet sources sourceId with
  | none => "[Source not found: " ++ sourceId ++ "]"
  | some source =>
    match style with
    | .apa => formatApaCitation source
    | .mla => formatMlaCitation source
    | .chicago => formatChicagoCitation source
    | .harvard => formatHarvardCitation source
    | .ieee => formatIeeeCitation source

/-- Python `f"{x}"` for `x : Optional[str]` — `None` renders as the
string `"None"`. -/
def pyStrOfOptStr : Option String → String
  | some s => s
  | none => "None"

/-- `CitationManager.format_in_text_citation` (lines 97–119).  APA uses
`", "` between name and year; Harvard uses a single space; MLA omits the
year; every other style (Chicago, IEEE) falls back to `(source_id)`. -/
def formatInTextCitation (sources : List (String × SourceMetadata))
    (sourceId : String) (style : CitationStyle) : String :=
  match dictGet sources sourceId with
  | none => "[Source not found: " ++ sourceId ++ "]"
  | some source =>
    match style with
    | .apa =>
      if source.author ≠ "Unknown" then
        "(" ++ source.author ++ ", " ++ pyStrOfOptStr (extractYear source.publishDate) ++ ")"
      else
        "(" ++ source.title ++ ", " ++ pyStrOfOptStr (extractYear source.publishDate) ++ ")"
    | .mla =>
      if source.author ≠ "Unknown" then "(" ++ source.author ++ ")"
      else "(" ++ source.title ++ ")"
    | .harvard =>
      if source.author ≠ "Unknown" then
        "(" ++ source.author ++ " " ++ pyStrOfOptStr (extractYear source.publishDate) ++ ")"
      else
        "(" ++ source.title ++ " " ++ pyStrOfOptStr (extractYear source.publishDate) ++ ")"
    | _ => "(" ++ sourceId ++ ")"

/-! ### Statistics (lines 143–168) -/

/-- `d[k] = d.get(k, 0) + 1` on an insertion-ordered dict. -/
def bump (m : List (String × Nat)) (k : String) : List (String × Nat) :=
  if m.any (fun p => p.1 = k) then
    m.map (fun p => if p.1 = k then (p.1, p.2 + 1) else p)
  else m ++ [(k, 1)]

/-- Python `max(items, key=lambda x: x[1])[0]`: scan in order, replacing
the current best only on a strictly greater count — ties keep the first
entry encountered. -/
def maxByCountFirst : List (String × Nat) → Option String
  | [] => none
  | x :: xs => some (xs.foldl (fun best p => if best.2 < p.2 then p else best) x).1

/-- The dictionary returned by `get_source_statistics`. -/
structure SourceStatistics where
  totalSources : Nat
  totalCitations : Nat
  domains : List (String × Nat)
  authors : List (String × Nat)
  years : List (String × Nat)
  mostCommonDomain : Option String
  mostCommonAuthor : Option String
deriving DecidableEq, Repr

/-- `CitationManager.get_source_statistics` (lines 143–168). -/
def getSourceStatistics (m : Manager) : SourceStatistics :=
  let vals := m.sources.map Prod.snd
  let domains := vals.foldl (fun d s => bump d s.domain) []
  let authors := vals.foldl (fun d s => bump d s.author) []
  let years := vals.foldl (fun d s =>
    match extractYear s.publishDate with
    | some y => bump d y
    | none => d) []
  { totalSources := m.sources.length
    totalCitations := m.citations.length
    domains := domains
    authors := authors
    years := years
    mostCommonDomain := if domains.isEmpty then none else maxByCountFirst domains
    mostCommonAuthor := if authors.isEmpty then none else maxByCountFirst authors }

/-- The base identifier exactly as claim C4 (and spec §4.6 step 1)
describes it: only a LEADING `"www."` stripped from the host. -/
def claimBaseId (host title : String) : String :=
  let dom : String :=
    if listStarts "www.".data host.data then ⟨host.data.drop 4⟩ else host
  dom ++ "_" ++ joinWith ['_'] (slugWords title)

/-- Claim C9's description of the most-common scan: the first entry in
insertion order whose count is maximal. -/
def firstMaxEntry (l : List (String × Nat)) : Option (String × Nat) :=
  l.find? (fun p => l.all (fun q => q.2 ≤ p.2))

/-! ## Helper lemmas -/

theorem rfindPeriod_lt_length {l : List Char} {p : Nat}
    (h : rfindPeriod l = some p) : p < l.length := by
  induction l generalizing p with
  | nil => simp [rfindPeriod] at h
  | cons c rest ih =>
    simp only [rfindPeriod] at h
    split at h
    · next i hr =>
      cases h
      have := ih hr
      simp only [List.length_cons]
      omega
    · next hr =>
      split at h
      · cases h
        simp
      · simp at h

theorem rfindPeriod_getElem {l : List Char} {p : Nat}
    (h : rfindPeriod l = some p) : l[p]? = some '.' := by
  induction l generalizing p with
  | nil => simp [rfindPeriod] at h
  | cons c rest ih =>
    simp only [rfindPeriod] at h
    split at h
    · next i hr =>
      cases h
      simpa using ih hr
    · next hr =>
      split at h
      · next hc =>
        cases h
        simp [hc]
      · simp at h

theorem getLast?_take_succ {l : List Char} {p : Nat} {c : Char}
    (h : l[p]? = some c) : (l.take (p + 1)).getLast? = some c := by
  induction l generalizing p with
  | nil => simp at h
  | cons a rest ih =>
    cases p with
    | zero =>
      simp at h
      simp [h]
    | succ p =>
      simp only [List.getElem?_cons_succ] at h
      have htail := ih h
      have hne : rest.take (p + 1) ≠ [] := by
        intro hnil
        rw [hnil] at htail
        simp at htail
      rw [List.take_succ_cons]
      cases ht : rest.take (p + 1) with
      | nil => exact absurd ht hne
      | cons x xs =>
        rw [ht] at htail
        rw [List.getLast?_cons_cons]
        exact htail

/-! ## Claim C2 — sentence-aware truncation -/

/-- Claim C2, as stated, is false at `content = "aaaaaaaa.aa"`,
`maxLength = 10`: the last period inside the first 10 characters sits at
index 8, which IS at least 80 % of 10, so the claim requires truncation
at that period (result `"aaaaaaaa."`, no ellipsis); but the source's
comparison `last_period > max_length * 0.8` is strict (`8 > 8.0` is
false), so the code returns the first 10 characters plus `"..."`. -/
theorem claim_C2_counterexample :
    truncateContent "aaaaaaaa.aa" 10 = "aaaaaaaa.a..." ∧
    rfindPeriod (("aaaaaaaa.aa" : String).data.take 10) = some 8 ∧
    5 * 8 = 4 * 10 ∧
    truncateContent "aaaaaaaa.aa" 10 ≠ "aaaaaaaa." := by decide

/-- Claim C2, amended: the period-truncation branch fires only when the
last period's position is STRICTLY greater than 80 % of `maxLength`
(the source compares with `>`, not `≥`); everything else is as claimed —
content within the budget is returned unchanged, the result never
exceeds `maxLength + 3` characters, the period branch truncates just
after the period (and the result then ends with `'.'`), and otherwise
the result is the first `maxLength` characters with `"..."` appended. -/
theorem claim_C2_amended (content : String) (maxLength : Nat)
    (_hpos : 0 < maxLength) :
    (content.length ≤ maxLength → truncateContent content maxLength = content) ∧
    (truncateContent content maxLength).length ≤ maxLength + 3 ∧
    (maxLength < content.length →
      (∀ p, rfindPeriod (content.data.take maxLength) = some p →
        (4 * maxLength < 5 * p →
          truncateContent content maxLength = ⟨content.data.take (p + 1)⟩ ∧
          pyEndsWithDot (truncateContent content maxLength) = true) ∧
        (¬ 4 * maxLength < 5 * p →
          truncateContent content maxLength =
            (⟨content.data.take maxLength⟩ : String) ++ "...")) ∧
      (rfindPeriod (content.data.take maxLength) = none →
        truncateContent content maxLength =
          (⟨content.data.take maxLength⟩ : String) ++ "...")) := by
  have hcl : content.length = content.data.length := rfl
  have hdots : ("..." : String).length = 3 := rfl
  have hmk : ∀ l : List Char, (String.mk l).length = l.length := fun _ => rfl
  have hunch : content.length ≤ maxLength →
      truncateContent content maxLength = content := by
    intro hle
    unfold truncateContent
    rw [if_neg (by omega)]
  have hsome : ∀ p, maxLength < content.length →
      rfindPeriod (content.data.take maxLength) = some p →
      truncateContent content maxLength =
        (if 4 * maxLength < 5 * p then
          (⟨(content.data.take maxLength).take (p + 1)⟩ : String)
         else (⟨content.data.take maxLength⟩ : String) ++ "...") := by
    intro p hlt hr
    simp only [truncateContent, if_pos hlt, hr]
  have hnone : maxLength < content.length →
      rfindPeriod (content.data.take maxLength) = none →
      truncateContent content maxLength =
        (⟨content.data.take maxLength⟩ : String) ++ "..." := by
    intro hlt hr
    simp only [truncateContent, if_pos hlt, hr]
  refine ⟨hunch, ?_, ?_⟩
  · by_cases hlt : maxLength < content.length
    · cases hr : rfindPeriod (content.data.take maxLength) with
      | some p =>
        rw [hsome p hlt hr]
        have hp := rfindPeriod_lt_length hr
        rw [List.length_take] at hp
        split
        · rw [hmk, List.length_take]
          omega
        · rw [String.length_append, hmk, List.length_take, hdots]
          omega
      | none =>
        rw [hnone hlt hr, String.length_append, hmk, List.length_take, hdots]
        omega
    · rw [hunch (by omega)]
      omega
  · intro hlt
    constructor
    · intro p hr
      have hp := rfindPeriod_lt_length hr
      rw [List.length_take] at hp
      constructor
      · intro hgt
        have heq : truncateContent content maxLength =
            ⟨content.data.take (p + 1)⟩ := by
          rw [hsome p hlt hr, if_pos hgt]
          congr 1
          rw [List.take_take]
          congr 1
          omega
        refine ⟨heq, ?_⟩
        rw [heq]
        have hget : content.data[p]? = some '.' := by
          have hg := rfindPeriod_getElem hr
          rwa [List.getElem?_take_of_lt (by omega)] at hg
        simp only [pyEndsWithDot]
        simp [getLast?_take_succ hget]
      · intro hngt
        rw [hsome p hlt hr, if_neg hngt]
    · intro hr
      exact hnone hlt hr

/-- Witness for `claim_C2_amended` at `content = "Short. And then more"`,
`maxLength = 10`. -/
theorem claim_C2_amended_witness :
    truncateContent "Short. And then more" 10 =
      (⟨("Short. And then more" : String).data.take 10⟩ : String) ++ "..." := by
  have h := claim_C2_amended "Short. And then more" 10 (by decide)
  exact ((h.2.2 (by decide)).1 5 (by decide)).2 (by decide)

/-! ## Claim C1 — extraction per URL: one document, raising behaviour,
and the domain field -/

theorem formatResult_metadata (r : StrategyResult) (url host : String)
    (maxLength : Nat) (now : String) :
    (formatResult r url host maxLength now).metadata = r.metadata := rfl

theorem newspaper_domain {host : String} {o : Option NewspaperArticle}
    {r : StrategyResult} (h : extractWithNewspaper host o = some r) :
    r.metadata.domain = host := by
  cases o with
  | none => simp [extractWithNewspaper] at h
  | some a =>
    simp only [extractWithNewspaper, Option.map_some'] at h
    cases h
    rfl

theorem readability_domain {host : String} {o : Option ReadabilityPage}
    {r : StrategyResult} (h : extractWithReadability host o = some r) :
    r.metadata.domain = host := by
  cases o with
  | none => simp [extractWithReadability] at h
  | some a =>
    simp only [extractWithReadability, Option.map_some'] at h
    cases h
    rfl

theorem bs_domain (host : String) (o : BsOutcome) :
    (extractWithBeautifulsoup host o).metadata.domain = host := by
  cases o <;> rfl

theorem fallback_domain (url host : String) (o : ExtractOracle)
    (maxLength : Nat) :
    (extractContentFallback url host o maxLength).metadata.domain = host := by
  unfold extractContentFallback
  split
  · next r hr =>
    split
    · rw [formatResult_metadata]
      exact readability_domain hr
    · rw [formatResult_metadata]
      exact bs_domain host o.bs
  · next hr =>
    rw [formatResult_metadata]
    exact bs_domain host o.bs

theorem core_domain (url host : String) (o : ExtractOracle) (maxLength : Nat) :
    (extractContentCore url host o maxLength).metadata.domain = host := by
  unfold extractContentCore
  split
  · next r hn =>
    split
    · rw [formatResult_metadata]
      exact newspaper_domain hn
    · exact fallback_domain url host o maxLength
  · next hn => exact fallback_domain url host o maxLength

/-- Claim C1, as stated, is false: `extract_content` does NOT return a
result document for every URL string, it can raise.  At
`url = "http://["`, `urlparse(url).netloc` raises
`ValueError("Invalid IPv6 URL")`; newspaper and readability swallow
their copies of the error inside their `try` blocks and return `None`,
but the BeautifulSoup `except` handler itself evaluates
`urlparse(url).netloc` (line 154) and throws, the coordinator's outer
`except` catches that, and its own failure dictionary evaluates
`urlparse(url).netloc` again (line 44), re-raising the `ValueError`,
which escapes `extract_content` — whatever the network would have
answered (second conjunct: even an oracle offering a fully successful
newspaper article still ends in the raise). -/
theorem claim_C1_counterexample :
    netlocE "http://[" = Except.error "Invalid IPv6 URL" ∧
    extractionError
      (extractContent "http://[" ⟨none, none, .err "net down", "t"⟩ 5000) =
      some "Invalid IPv6 URL" ∧
    extractedDoc
      (extractContent "http://["
        ⟨some ⟨"T", "s", "body text", [], none⟩, none, .err "e", "t"⟩ 5000) =
      none := by decide

/-- Claim C1, amended: for every URL whose host parses — `urlsplit`
raises no `ValueError` on it — and every behaviour of the network and
parsing libraries (the oracle), `extract_content` returns exactly one
result document, never raises, and its `metadata.domain` equals the
parsed netloc (the URL's host component after `urlsplit`'s tab/CR/LF and
leading-control-character sanitization) on every path (newspaper
success, readability success, BeautifulSoup success, and the
BeautifulSoup failure record); on a URL whose host does not parse,
`extract_content` raises that `ValueError` instead, for every oracle. -/
theorem claim_C1_amended (url : String) (o : ExtractOracle) (maxLength : Nat) :
    (∀ host, netlocE url = Except.ok host →
      extractContent url o maxLength =
        Except.ok (extractContentCore url host o maxLength) ∧
      (extractContentCore url host o maxLength).metadata.domain = host) ∧
    (∀ e, netlocE url = Except.error e →
      extractContent url o maxLength = Except.error e) := by
  constructor
  · intro host hok
    refine ⟨?_, core_domain url host o maxLength⟩
    unfold extractContent
    rw [hok]
  · intro e herr
    unfold extractContent
    rw [herr]

/-- Witness for `claim_C1_amended` at a URL with a parsing host. -/
theorem claim_C1_amended_witness :
    extractContent "https://a.org/p" ⟨none, none, .err "down", "w"⟩ 5000 =
      Except.ok (extractContentCore "https://a.org/p" "a.org"
        ⟨none, none, .err "down", "w"⟩ 5000) ∧
    (extractContentCore "https://a.org/p" "a.org"
      ⟨none, none, .err "down", "w"⟩ 5000).metadata.domain = "a.org" :=
  (claim_C1_amended "https://a.org/p" ⟨none, none, .err "down", "w"⟩ 5000).1
    "a.org" (by decide)

/-! ## Claim C3 — the all-strategies-failed document -/

/-- Oracle on which all three strategies fail: newspaper and readability
raise (→ `None`), BeautifulSoup raises with message `"boom"`. -/
def c3Oracle : ExtractOracle :=
  { newspaper := none, readability := none, bs := .err "boom", now := "t0" }

/-- Claim C3, as stated, is false: when all three strategies fail, the
document actually comes from `_extract_with_beautifulsoup`'s own failure
dictionary (lines 147–158) — title `"Extraction Failed"` and
`extraction_method = "beautifulsoup_failed"` — not from the coordinator's
outer `except` block (title `"Content Extraction Failed"`, method
`"failed"`), which no strategy failure reaches because every strategy
catches its own exceptions. -/
theorem claim_C3_counterexample :
    extractedDoc (extractContent "https://x.com/p" c3Oracle 5000) =
      some
        { url := "https://x.com/p"
          title := "Extraction Failed"
          summary := "Could not extract content: boom"
          content := ""
          metadata :=
            { author := "Unknown"
              publishDate := none
              domain := "x.com"
              extractionMethod := "beautifulsoup_failed"
              error := some "boom" }
          sourceInfo :=
            { link := "https://x.com/p"
              website := "x.com"
              extractionTimestamp := "t0" } } ∧
    ("Extraction Failed" : String) ≠ "Content Extraction Failed" ∧
    ("beautifulsoup_failed" : String) ≠ "failed" := by decide

theorem truncate_empty (n : Nat) : truncateContent "" n = "" := by
  unfold truncateContent
  rw [if_neg]
  intro h
  simp at h

/-- Claim C3, amended: for every URL whose host parses, on which the
newspaper and readability strategies produce no content and the
BeautifulSoup strategy raises with message `msg`, `extract_content`
returns (never throws) a document with title `"Extraction Failed"`,
content `""`, `metadata.error = msg`, and `metadata.extraction_method =
"beautifulsoup_failed"`.  (On a URL whose host does not parse,
`extract_content` raises `ValueError` instead — see
`claim_C1_counterexample`.) -/
theorem claim_C3_amended (url : String) (o : ExtractOracle) (maxLength : Nat)
    (msg host : String)
    (hu : netlocE url = Except.ok host)
    (hn : ∀ a, o.newspaper = some a → a.text = "")
    (hr : ∀ p, o.readability = some p → p.cleanContent = "")
    (hb : o.bs = .err msg) :
    extractContent url o maxLength =
      Except.ok
        { url := url
          title := "Extraction Failed"
          summary := "Could not extract content: " ++ msg
          content := ""
          metadata :=
            { author := "Unknown"
              publishDate := none
              domain := host
              extractionMethod := "beautifulsoup_failed"
              error := some msg }
          sourceInfo :=
            { link := url
              website := host
              extractionTimestamp := o.now } } := by
  have hfb : extractContentFallback url host o maxLength =
      formatResult (extractWithBeautifulsoup host o.bs) url host maxLength o.now := by
    unfold extractContentFallback
    cases hro : o.readability with
    | none => rfl
    | some p =>
      simp only [extractWithReadability, Option.map_some']
      rw [if_neg]
      simp [hr p hro]
  have hcore : extractContentCore url host o maxLength =
      formatResult (extractWithBeautifulsoup host o.bs) url host maxLength o.now := by
    unfold extractContentCore
    cases hno : o.newspaper with
    | none => exact hfb
    | some a =>
      simp only [extractWithNewspaper, Option.map_some']
      rw [if_neg]
      · exact hfb
      · simp [hn a hno]
  have hstep : extractContent url o maxLength =
      Except.ok (extractContentCore url host o maxLength) := by
    unfold extractContent
    rw [hu]
  rw [hstep, hcore, hb]
  unfold extractWithBeautifulsoup formatResult
  simp only
  rw [truncate_empty]

/-- Witness for `claim_C3_amended` on the concrete oracle `c3Oracle`. -/
theorem claim_C3_amended_witness :
    extractContent "https://x.com/p" c3Oracle 5000 =
      Except.ok
        { url := "https://x.com/p"
          title := "Extraction Failed"
          summary := "Could not extract content: boom"
          content := ""
          metadata :=
            { author := "Unknown"
              publishDate := none
              domain := "x.com"
              extractionMethod := "beautifulsoup_failed"
              error := some "boom" }
          sourceInfo :=
            { link := "https://x.com/p"
              website := "x.com"
              extractionTimestamp := "t0" } } :=
  claim_C3_amended "https://x.com/p" c3Oracle 5000 "boom" "x.com" (by decide)
    (fun _ ha => nomatch ha) (fun _ hp => nomatch hp) rfl

/-! ## Claim C6 — batch extraction: one entry per input URL -/

theorem find?_update_self {α : Type} {k : String} {v : α} :
    ∀ (d : List (String × α)), d.any (fun p => p.1 = k) = true →
      (d.map (fun p => if p.1 = k then (k, v) else p)).find?
        (fun p => p.1 = k) = some (k, v) := by
  intro d
  induction d with
  | nil => intro h; simp at h
  | cons a d ih =>
    intro h
    by_cases ha : a.1 = k
    · rw [List.map_cons, if_pos ha, List.find?_cons_of_pos _ (by simp)]
    · simp only [List.any_cons, Bool.or_eq_true, decide_eq_true_eq] at h
      rcases h with h | h
      · exact absurd h ha
      · rw [List.map_cons, if_neg ha, List.find?_cons_of_neg _ (by simp [ha])]
        exact ih h

theorem find?_update_other {α : Type} {k k' : String} {v : α} (hne : k' ≠ k) :
    ∀ (d : List (String × α)),
      (d.map (fun p => if p.1 = k then (k, v) else p)).find?
        (fun p => p.1 = k') = d.find? (fun p => p.1 = k') := by
  intro d
  induction d with
  | nil => rfl
  | cons a d ih =>
    by_cases ha : a.1 = k
    · rw [List.map_cons, if_pos ha,
        List.find?_cons_of_neg _ (by simp [Ne.symm hne]),
        List.find?_cons_of_neg _ (by simp [ha, Ne.symm hne])]
      exact ih
    · rw [List.map_cons, if_neg ha]
      by_cases ha' : a.1 = k'
      · rw [List.find?_cons_of_pos _ (by simp [ha']),
          List.find?_cons_of_pos _ (by simp [ha'])]
      · rw [List.find?_cons_of_neg _ (by simp [ha']),
          List.find?_cons_of_neg _ (by simp [ha'])]
        exact ih

theorem find?_append_of_none {α : Type} {p : α → Bool} {l₁ : List α}
    (h : l₁.find? p = none) (l₂ : List α) :
    (l₁ ++ l₂).find? p = l₂.find? p := by
  induction l₁ with
  | nil => rfl
  | cons a l₁ ih =>
    by_cases hpa : p a = true
    · rw [List.find?_cons_of_pos _ hpa] at h
      exact absurd h (by simp)
    · rw [List.find?_cons_of_neg _ hpa] at h
      rw [List.cons_append, List.find?_cons_of_neg _ hpa]
      exact ih h

theorem dictGet_insert_self {α : Type} (d : List (String × α)) (k : String) (v : α) :
    dictGet (dictInsert d k v) k = some v := by
  unfold dictInsert
  split
  · next hany => rw [dictGet, find?_update_self d hany]
  · next hany =>
    have hnone : d.find? (fun p => p.1 = k) = none := by
      rw [List.find?_eq_none]
      intro p hp
      simp only [Bool.not_eq_true, decide_eq_false_iff_not]
      intro hk
      exact hany (List.any_eq_true.mpr ⟨p, hp, by simp [hk]⟩)
    rw [dictGet, find?_append_of_none hnone]
    simp [List.find?]

theorem find?_append_of_some {α : Type} {p : α → Bool} {l₁ : List α} {q : α}
    (h : l₁.find? p = some q) (l₂ : List α) :
    (l₁ ++ l₂).find? p = some q := by
  induction l₁ with
  | nil => simp at h
  | cons a l₁ ih =>
    by_cases hpa : p a = true
    · rw [List.find?_cons_of_pos _ hpa] at h
      rw [List.cons_append, List.find?_cons_of_pos _ hpa]
      exact h
    · rw [List.find?_cons_of_neg _ hpa] at h
      rw [List.cons_append, List.find?_cons_of_neg _ hpa]
      exact ih h

theorem dictGet_insert_other {α : Type} (d : List (String × α)) {k k' : String}
    (v : α) (hne : k' ≠ k) :
    dictGet (dictInsert d k v) k' = dictGet d k' := by
  unfold dictInsert
  split
  · rw [dictGet, find?_update_other hne, dictGet]
  · rw [dictGet, dictGet]
    cases hf : d.find? (fun p => p.1 = k') with
    | some q => rw [find?_append_of_some hf]
    | none =>
      rw [find?_append_of_none hf]
      simp [List.find?, Ne.symm hne]

theorem keys_update {α : Type} (k : String) (v : α) :
    ∀ (d : List (String × α)),
      (d.map (fun p => if p.1 = k then (k, v) else p)).map Prod.fst =
        d.map Prod.fst := by
  intro d
  induction d with
  | nil => rfl
  | cons a d ih =>
    by_cases ha : a.1 = k
    · simp only [List.map_cons, if_pos ha, ih]
      rw [ha]
    · simp only [List.map_cons, if_neg ha, ih]

theorem keys_insert_mem {α : Type} {d : List (String × α)} {k x : String} {v : α}
    (h : x ∈ (dictInsert d k v).map Prod.fst) :
    x = k ∨ x ∈ d.map Prod.fst := by
  unfold dictInsert at h
  split at h
  · rw [keys_update] at h
    exact Or.inr h
  · rw [List.map_append] at h
    rcases List.mem_append.mp h with h | h
    · exact Or.inr h
    · simp at h
      exact Or.inl h

theorem keys_insert_nodup {α : Type} {d : List (String × α)} (k : String) (v : α)
    (h : (d.map Prod.fst).Nodup) :
    ((dictInsert d k v).map Prod.fst).Nodup := by
  unfold dictInsert
  split
  · rwa [keys_update]
  · next hany =>
    rw [List.map_append]
    rw [List.nodup_append]
    refine ⟨h, by simp, ?_⟩
    intro x hx hk
    simp at hk
    subst hk
    apply hany
    rw [List.any_eq_true]
    rcases List.mem_map.mp hx with ⟨p, hp, hpk⟩
    exact ⟨p, hp, by simp [hpk]⟩

theorem foldl_insert_get {α : Type} (f : String → α) :
    ∀ (urls : List String) (acc : List (String × α)) (u : String),
      (u ∈ urls ∨ dictGet acc u = some (f u)) →
      dictGet (urls.foldl (fun a x => dictInsert a x (f x)) acc) u = some (f u) := by
  intro urls
  induction urls with
  | nil =>
    intro acc u h
    rcases h with h | h
    · simp at h
    · simpa using h
  | cons x urls ih =>
    intro acc u h
    rw [List.foldl_cons]
    apply ih
    by_cases hux : u = x
    · subst hux
      exact Or.inr (dictGet_insert_self acc u (f u))
    · rcases h with hmem | hacc
      · rcases List.mem_cons.mp hmem with heq | hmem'
        · exact absurd heq hux
        · exact Or.inl hmem'
      · exact Or.inr (by rw [dictGet_insert_other acc (f x) hux]; exact hacc)

theorem foldl_insert_keys {α : Type} (f : String → α) :
    ∀ (urls : List String) (acc : List (String × α)) (x : String),
      x ∈ ((urls.foldl (fun a u => dictInsert a u (f u)) acc).map Prod.fst) →
      x ∈ urls ∨ x ∈ acc.map Prod.fst := by
  intro urls
  induction urls with
  | nil =>
    intro acc x h
    exact Or.inr (by simpa using h)
  | cons u urls ih =>
    intro acc x h
    rw [List.foldl_cons] at h
    rcases ih _ x h with h' | h'
    · exact Or.inl (List.mem_cons_of_mem u h')
    · rcases keys_insert_mem h' with heq | h''
      · exact Or.inl (by rw [heq]; exact List.mem_cons_self _ _)
      · exact Or.inr h''

theorem foldl_insert_nodup {α : Type} (f : String → α) :
    ∀ (urls : List String) (acc : List (String × α)),
      (acc.map Prod.fst).Nodup →
      ((urls.foldl (fun a u => dictInsert a u (f u)) acc).map Prod.fst).Nodup := by
  intro urls
  induction urls with
  | nil => intro acc h; simpa using h
  | cons u urls ih =>
    intro acc h
    rw [List.foldl_cons]
    exact ih _ (keys_insert_nodup u (f u) h)

theorem netlocE_eq_ok {url : String} (h : exceptOk (netlocE url) = true) :
    netlocE url = Except.ok (netlocD url) := by
  cases he : netlocE url with
  | ok v => unfold netlocD; rw [he]
  | error e => rw [he] at h; exact absurd h (by simp [exceptOk])

theorem extractMultipleUrlsAux_ok (env : String → ExtractOracle) (len : Nat) :
    ∀ (urls : List String) (acc : List (String × ResultDoc)),
      (∀ url ∈ urls, exceptOk (netlocE url) = true) →
      extractMultipleUrlsAux env len acc urls =
        Except.ok (urls.foldl
          (fun a u => dictInsert a u (extractContentCore u (netlocD u) (env u) len))
          acc) := by
  intro urls
  induction urls with
  | nil => intro acc _; rfl
  | cons u urls ih =>
    intro acc h
    have hu := h u (List.mem_cons_self _ _)
    have hok : extractContent u (env u) len =
        Except.ok (extractContentCore u (netlocD u) (env u) len) := by
      unfold extractContent
      rw [netlocE_eq_ok hu]
    rw [List.foldl_cons]
    unfold extractMultipleUrlsAux
    rw [hok]
    exact ih _ (fun v hv => h v (List.mem_cons_of_mem u hv))

/-- Claim C6, as stated, is false: the batch loop has no per-URL
exception handling (`results[url] = self.extract_content(url,
max_length_per_url)`, content_extractor.py line 277), so a URL on which
`urlparse` raises `ValueError` aborts the whole batch: with inputs
`["https://ok.org/x", "http://["]` the `ValueError("Invalid IPv6 URL")`
escapes `extract_multiple_urls` and no result dictionary is produced —
not even an entry for the first URL, whose own extraction succeeded. -/
theorem claim_C6_counterexample :
    extractMultipleUrls ["https://ok.org/x", "http://["]
      (fun _ => ⟨none, none, .err "down", "t1"⟩) 3000 =
    Except.error "Invalid IPv6 URL" := by decide

/-- Claim C6, amended: for every ordered list of input URLs on each of
which `urlsplit` accepts the host (raises no `ValueError`), and every
behaviour of the per-URL oracles, `extract_multiple_urls` completes and
returns a dictionary mapping each input URL to the document
`extract_content` produces for it, with no key outside the input list
and every key bound exactly once (a URL listed twice yields one entry,
carrying that URL's document — Python dict assignment overwrites).  When
some input URL's host does not parse, the batch instead aborts with that
`ValueError` — see `claim_C6_counterexample`. -/
theorem claim_C6_amended (urls : List String) (env : String → ExtractOracle)
    (maxLengthPerUrl : Nat)
    (hok : ∀ url ∈ urls, exceptOk (netlocE url) = true) :
    ∃ res, extractMultipleUrls urls env maxLengthPerUrl = Except.ok res ∧
      (∀ url ∈ urls,
        dictGet res url =
          some (extractContentCore url (netlocD url) (env url) maxLengthPerUrl)) ∧
      (∀ p ∈ res, p.1 ∈ urls) ∧
      (res.map Prod.fst).Nodup := by
  refine ⟨_, extractMultipleUrlsAux_ok env maxLengthPerUrl urls [] hok, ?_, ?_, ?_⟩
  · intro url hmem
    exact foldl_insert_get
      (fun u => extractContentCore u (netlocD u) (env u) maxLengthPerUrl)
      urls [] url (Or.inl hmem)
  · intro p hp
    have hk := List.mem_map_of_mem Prod.fst hp
    rcases foldl_insert_keys
        (fun u => extractContentCore u (netlocD u) (env u) maxLengthPerUrl)
        urls [] p.1 hk with h | h
    · exact h
    · simp at h
  · exact foldl_insert_nodup
      (fun u => extractContentCore u (netlocD u) (env u) maxLengthPerUrl)
      urls [] (by simp)

/-- Witness for `claim_C6_amended` on a concrete two-URL batch with a
duplicated first URL. -/
theorem claim_C6_amended_witness :
    ∃ res,
      extractMultipleUrls ["https://a.com/x", "https://a.com/x", "https://b.com/y"]
        (fun _ => ⟨none, none, .err "down", "t1"⟩) 3000 = Except.ok res ∧
      (∀ url ∈ (["https://a.com/x", "https://a.com/x", "https://b.com/y"] : List String),
        dictGet res url =
          some (extractContentCore url (netlocD url)
            ((fun _ => (⟨none, none, .err "down", "t1"⟩ : ExtractOracle)) url) 3000)) ∧
      (∀ p ∈ res,
        p.1 ∈ (["https://a.com/x", "https://a.com/x", "https://b.com/y"] : List String)) ∧
      (res.map Prod.fst).Nodup :=
  claim_C6_amended ["https://a.com/x", "https://a.com/x", "https://b.com/y"]
    (fun _ => ⟨none, none, .err "down", "t1"⟩) 3000 (by decide)

/-! ## Claim C5 — summary generation -/

theorem splitTermsAux_no_term (fuel : Nat) :
    ∀ (acc l : List Char), (∀ c ∈ acc, isTermChar c = false) →
      ∀ s ∈ splitTermsAux fuel acc l, ∀ c ∈ s.data, isTermChar c = false := by
  induction fuel with
  | zero =>
    intro acc l hacc s hs c hc
    simp only [splitTermsAux, List.mem_singleton] at hs
    subst hs
    simp only [List.mem_reverse] at hc
    exact hacc c hc
  | succ fuel ih =>
    intro acc l hacc s hs c hc
    cases l with
    | nil =>
      simp only [splitTermsAux, List.mem_singleton] at hs
      subst hs
      simp only [List.mem_reverse] at hc
      exact hacc c hc
    | cons x rest =>
      simp only [splitTermsAux] at hs
      split at hs
      · next hx =>
        rcases List.mem_cons.mp hs with heq | hmem
        · subst heq
          simp only [List.mem_reverse] at hc
          exact hacc c hc
        · exact ih [] _ (by simp) s hmem c hc
      · next hx =>
        refine ih (x :: acc) rest ?_ s hs c hc
        intro c' hc'
        rcases List.mem_cons.mp hc' with heq | hmem
        · subst heq
          exact Bool.eq_false_iff.mpr hx
        · exact hacc c' hmem

theorem splitTerms_no_term (s : String) :
    ∀ t ∈ splitTerms s, ∀ c ∈ t.data, isTermChar c = false :=
  splitTermsAux_no_term s.data.length [] s.data (by simp)

theorem pyStrip_subset {l : List Char} : ∀ c ∈ pyStrip l, c ∈ l := by
  intro c hc
  unfold pyStrip at hc
  rw [List.mem_reverse] at hc
  have h1 := (List.dropWhile_sublist pyIsSpace).subset hc
  rw [List.mem_reverse] at h1
  exact (List.dropWhile_sublist pyIsSpace).subset h1

theorem str_ne_empty_data {s : String} (h : s ≠ "") : s.data ≠ [] := by
  intro hd
  exact h (String.ext hd)

theorem summaryLoop_mem (maxLength : Nat) :
    ∀ (sentences : List String) (cur : Nat) (s : String),
      s ∈ summaryLoop maxLength sentences cur →
      s ≠ "" ∧ ∃ t ∈ sentences, s = stripStr t := by
  intro sentences
  induction sentences with
  | nil => intro cur s h; simp [summaryLoop] at h
  | cons x rest ih =>
    intro cur s h
    simp only [summaryLoop] at h
    split at h
    · next hcond =>
      rcases List.mem_cons.mp h with heq | hmem
      · subst heq
        exact ⟨hcond.1, x, by simp⟩
      · obtain ⟨hne, t, ht, hs⟩ := ih _ s hmem
        exact ⟨hne, t, List.mem_cons_of_mem x ht, hs⟩
    · simp at h

theorem budgetTake_mem :
    ∀ (l : List String) (b : Nat) (x : String), x ∈ budgetTake b l →
      x ≠ "" ∧ x ∈ l := by
  intro l
  induction l with
  | nil => intro b x h; simp [budgetTake] at h
  | cons s rest ih =>
    intro b x h
    simp only [budgetTake] at h
    split at h
    · next hcond =>
      rcases List.mem_cons.mp h with heq | hmem
      · subst heq
        exact ⟨hcond.1, by simp⟩
      · obtain ⟨hne, hm⟩ := ih _ x hmem
        exact ⟨hne, List.mem_cons_of_mem s hm⟩
    · simp at h

theorem joinWith_getLast_ne_dot (sep : List Char) :
    ∀ (ss : List String), ss ≠ [] → (∀ s ∈ ss, s.data ≠ [] ∧ '.' ∉ s.data) →
      ∃ c, (joinWith sep ss).data.getLast? = some c ∧ c ≠ '.' := by
  intro ss
  induction ss with
  | nil => intro h; exact absurd rfl h
  | cons s ss ih =>
    intro _ hall
    cases ss with
    | nil =>
      have hs := hall s (by simp)
      cases hL : s.data.getLast? with
      | none =>
        rw [List.getLast?_eq_none_iff] at hL
        exact absurd hL hs.1
      | some c =>
        refine ⟨c, hL, ?_⟩
        intro hc
        subst hc
        exact hs.2 (List.mem_of_getLast?_eq_some hL)
    | cons s' ss' =>
      obtain ⟨c, hc, hcne⟩ :=
        ih (by simp) (fun t ht => hall t (List.mem_cons_of_mem s ht))
      refine ⟨c, ?_, hcne⟩
      show ((s ++ (⟨sep⟩ : String) ++ joinWith sep (s' :: ss')).data).getLast? = some c
      rw [String.data_append, String.data_append, List.append_assoc]
      rw [List.getLast?_append_of_ne_nil]
      · rw [List.getLast?_append_of_ne_nil]
        · exact hc
        · intro hnil
          rw [← List.getLast?_eq_none_iff, hc] at hnil
          simp at hnil
      · intro hnil
        rcases List.append_eq_nil.mp hnil with ⟨-, h2⟩
        rw [← List.getLast?_eq_none_iff, hc] at h2
        simp at h2

theorem summaryLoop_eq_budgetTake (maxLength : Nat) :
    ∀ (sentences : List String) (cur : Nat),
      summaryLoop maxLength sentences cur =
        budgetTake (maxLength - cur) (sentences.map stripStr) := by
  intro sentences
  induction sentences with
  | nil => intro cur; rfl
  | cons s rest ih =>
    intro cur
    rw [List.map_cons]
    simp only [summaryLoop, budgetTake]
    by_cases h1 : stripStr s = ""
    · rw [if_neg (fun hc => hc.1 h1), if_neg (fun hc => hc.1 h1)]
    · by_cases h2 : cur + (stripStr s).length < maxLength
      · have harg : maxLength - (cur + (stripStr s).length) =
            maxLength - cur - (stripStr s).length := by omega
        rw [if_pos ⟨h1, h2⟩, if_pos ⟨h1, by omega⟩, ih, harg]
      · rw [if_neg ?hng1, if_neg ?hng2]
        case hng1 =>
          intro hc
          exact h2 hc.2
        case hng2 =>
          intro hc
          obtain ⟨-, hc2⟩ := hc
          exact h2 (by omega)

/-- Claim C5, as stated, is false at `content = ".abc"` with the default
budget 300: the content is nonempty and far shorter than the budget, so
the claim requires it back with terminators normalized and a trailing
period — a nonempty, period-terminated string — but the source's loop
`break`s at the FIRST piece that is empty after stripping (the piece
before the leading `'.'`), so the summary is the empty string. -/
theorem claim_C5_counterexample :
    generateSummary ".abc" 300 = "" ∧
    (".abc" : String) ≠ "" ∧
    (".abc" : String).length < 300 ∧
    ¬ pyEndsWithDot (generateSummary ".abc" 300) = true := by decide

/-- Claim C5, amended: summary generation splits on runs of `.`, `!`,
`?`; walks the pieces in order, stripping each; stops at the first piece
that is empty after stripping or whose stripped length would bring the
running total to the budget or beyond; joins the accumulated pieces with
`". "`; and, when the result is nonempty, appends a trailing period (the
joined pieces contain no sentence terminators, so the period is never
already present).  Empty content yields the empty summary.  Equivalently:
`generateSummary` coincides with the specification function
`summarySpec` written from that description. -/
theorem claim_C5_amended (content : String) (maxLength : Nat) :
    generateSummary content maxLength = summarySpec content maxLength := by
  unfold generateSummary summarySpec
  by_cases hc : content = ""
  · rw [if_pos hc, if_pos hc]
  · rw [if_neg hc, if_neg hc]
    have hloop := summaryLoop_eq_budgetTake maxLength (splitTerms content) 0
    rw [Nat.sub_zero] at hloop
    simp only [hloop]
    cases hacc : budgetTake maxLength ((splitTerms content).map stripStr) with
    | nil =>
      simp [joinWith]
    | cons s ss =>
      have hok : ∀ x ∈ s :: ss, x.data ≠ [] ∧ '.' ∉ x.data := by
        intro x hx
        rw [← hacc] at hx
        obtain ⟨hne, hmem⟩ := budgetTake_mem _ _ x hx
        obtain ⟨t, ht, hxt⟩ := List.mem_map.mp hmem
        refine ⟨str_ne_empty_data hne, ?_⟩
        intro hdot
        rw [← hxt] at hdot
        have hsub : ('.' : Char) ∈ t.data := pyStrip_subset '.' hdot
        have := splitTerms_no_term content t ht '.' hsub
        simp [isTermChar] at this
      obtain ⟨c, hcL, hcne⟩ :=
        joinWith_getLast_ne_dot ['.', ' '] (s :: ss) (by simp) hok
      have hnonempty : joinWith ['.', ' '] (s :: ss) ≠ "" := by
        intro hemp
        have : (joinWith ['.', ' '] (s :: ss)).data = [] := by rw [hemp]
        rw [← List.getLast?_eq_none_iff, hcL] at this
        simp at this
      have hdot : pyEndsWithDot (joinWith ['.', ' '] (s :: ss)) = false := by
        simp only [pyEndsWithDot, hcL]
        simp [hcne]
      rw [if_pos ⟨hnonempty, by simp [hdot]⟩, if_neg (by simp)]

/-! ## Claim C7 — in-text citation forms -/

/-- One-source registry used by the C7 counterexample and witness. -/
def c7Manager : Manager :=
  (addSourceBang emptyManager "https://example.com/a" "My Title" "Jane Doe"
    (some "2023-05-01") "webpage" "2026-10-12").1

/-- The id assigned to the single source of `c7Manager`. -/
def c7Id : String := "example.com_my_title"

/-- Claim C7, as stated, is false for the Harvard style: the source's
Harvard branch (line 115) uses `f"({author} {year})"` — a single space,
no comma — while the claim (and the APA branch, line 105) puts `", "`
between the name and the year. -/
theorem claim_C7_counterexample :
    formatInTextCitation c7Manager.sources c7Id CitationStyle.harvard =
      "(Jane Doe 2023)" ∧
    formatInTextCitation c7Manager.sources c7Id CitationStyle.harvard ≠
      "(Jane Doe, 2023)" ∧
    formatInTextCitation c7Manager.sources c7Id CitationStyle.apa =
      "(Jane Doe, 2023)" := by decide

/-- Claim C7, amended: for every registered source id, the in-text form
is `"(author-or-title, year)"` for APA, `"(author-or-title year)"` (a
space, no comma) for Harvard, `"(author-or-title)"` for MLA, and the
fallback `"(id)"` for the remaining styles (Chicago, IEEE); the author is
used unless it is the sentinel `"Unknown"`, in which case the raw title
is used, and a missing year renders as Python's `"None"`. -/
theorem claim_C7_amended (sources : List (String × SourceMetadata))
    (sourceId : String) (source : SourceMetadata)
    (h : dictGet sources sourceId = some source) :
    formatInTextCitation sources sourceId CitationStyle.apa =
      "(" ++ (if source.author ≠ "Unknown" then source.author else source.title) ++
        ", " ++ pyStrOfOptStr (extractYear source.publishDate) ++ ")" ∧
    formatInTextCitation sources sourceId CitationStyle.harvard =
      "(" ++ (if source.author ≠ "Unknown" then source.author else source.title) ++
        " " ++ pyStrOfOptStr (extractYear source.publishDate) ++ ")" ∧
    formatInTextCitation sources sourceId CitationStyle.mla =
      "(" ++ (if source.author ≠ "Unknown" then source.author else source.title) ++ ")" ∧
    formatInTextCitation sources sourceId CitationStyle.chicago =
      "(" ++ sourceId ++ ")" ∧
    formatInTextCitation sources sourceId CitationStyle.ieee =
      "(" ++ sourceId ++ ")" := by
  refine ⟨?_, ?_, ?_, ?_, ?_⟩ <;> simp only [formatInTextCitation, h] <;>
    split_ifs <;> rfl

/-- Witness for `claim_C7_amended` on the concrete registry `c7Manager`. -/
theorem claim_C7_witness :
    formatInTextCitation c7Manager.sources c7Id CitationStyle.mla =
      "(Jane Doe)" := by
  have h := (claim_C7_amended c7Manager.sources c7Id
    { url := "https://example.com/a", title := "My Title", author := "Jane Doe"
      publishDate := some "2023-05-01", domain := "example.com"
      accessDate := "2026-10-12", contentType := "webpage" } (by decide)).2.2.1
  rw [h]
  decide

/-! ## Claim C8 — short-title recovery in `_clean_title` -/

/-- Claim C8, as stated, is false at `title = "A.xyz"`: the cleanup rules
reduce it to `"A"` (under 10 characters); the ORIGINAL title contains the
capitalized fragment `"A."` ending in a period, so the claim requires
recovery to `"A."`; but the source (line 209) searches the already
cleaned string — the variable `title` was reassigned by the substitutions
— finds no fragment there, and keeps `"A"`. -/
theorem claim_C8_counterexample :
    cleanTitle "A.xyz" = "A" ∧
    cleanRules "A.xyz" = "A" ∧
    searchFrag ("A.xyz" : String).data = some ['A', '.'] ∧
    searchFrag (cleanRules "A.xyz").data = none ∧
    cleanTitleClaim "A.xyz" = "A." ∧
    cleanTitle "A.xyz" ≠ cleanTitleClaim "A.xyz" := by decide

/-- Claim C8, amended: for every nonempty title whose cleaned form after
the four removal rules and whitespace collapse is under 10 characters,
the cleanup attempts to recover a capitalized sentence fragment ending in
`.`, `!` or `?` from the CLEANED title (not the original), and keeps the
short cleaned result exactly when no such fragment exists in it. -/
theorem claim_C8_amended (title : String) (hne : title ≠ "")
    (hshort : (cleanRules title).length < 10) :
    cleanTitle title =
      (match searchFrag (cleanRules title).data with
       | some m => (⟨m⟩ : String)
       | none => cleanRules title) := by
  simp only [cleanTitle, if_neg hne, if_pos hshort]

/-- Witness for `claim_C8_amended` at the concrete title `"A.xyz"`. -/
theorem claim_C8_amended_witness :
    cleanTitle "A.xyz" =
      (match searchFrag (cleanRules "A.xyz").data with
       | some m => (⟨m⟩ : String)
       | none => cleanRules "A.xyz") :=
  claim_C8_amended "A.xyz" (by decide) (by decide)

/-! ## Claim C10 — unknown source id: `add_citation` raises, the
formatters return the sentinel -/

/-- Claim C10: for every manager state and unknown source id,
`add_citation` raises `ValueError` (modelled as the `Except.error` with
the exception's message) and leaves the manager — both the sources map
and the citations list — unchanged, while `format_citation` and
`format_in_text_citation` return the sentinel string
`"[Source not found: <id>]"` for the same id, for every style. -/
theorem claim_C10 (m : Manager) (sourceId : String)
    (quote pageNumber sect : Option String) (confidence : ℚ)
    (style : CitationStyle)
    (h : dictGet m.sources sourceId = none) :
    addCitation m sourceId quote pageNumber sect confidence =
      (Except.error ("Source " ++ sourceId ++ " not found"), m) ∧
    formatCitation m.sources sourceId style =
      "[Source not found: " ++ sourceId ++ "]" ∧
    formatInTextCitation m.sources sourceId style =
      "[Source not found: " ++ sourceId ++ "]" := by
  refine ⟨?_, ?_, ?_⟩
  · simp only [addCitation, h]
  · simp only [formatCitation, h]
  · simp only [formatInTextCitation, h]

/-- Witness for `claim_C10` on the empty manager and id `"missing-id"`. -/
theorem claim_C10_witness :
    addCitation emptyManager "missing-id" none none none 1 =
      (Except.error ("Source " ++ "missing-id" ++ " not found"), emptyManager) ∧
    formatCitation emptyManager.sources "missing-id" CitationStyle.apa =
      "[Source not found: " ++ "missing-id" ++ "]" ∧
    formatInTextCitation emptyManager.sources "missing-id" CitationStyle.apa =
      "[Source not found: " ++ "missing-id" ++ "]" :=
  claim_C10 emptyManager "missing-id" none none none 1 CitationStyle.apa rfl

/-! ## Claim C9 — "most common" tie-breaking -/

theorem find?_congr {α : Type} {p q : α → Bool} :
    ∀ {l : List α}, (∀ x ∈ l, p x = q x) → l.find? p = l.find? q := by
  intro l
  induction l with
  | nil => intro _; rfl
  | cons a l ih =>
    intro h
    have ha := h a (by simp)
    by_cases hpa : p a = true
    · rw [List.find?_cons_of_pos _ hpa, List.find?_cons_of_pos _ (by rw [← ha]; exact hpa)]
    · rw [List.find?_cons_of_neg _ hpa, List.find?_cons_of_neg _ (by rw [← ha]; exact hpa)]
      exact ih (fun x hx => h x (List.mem_cons_of_mem a hx))

theorem foldl_max_eq_firstMax :
    ∀ (xs : List (String × Nat)) (b : String × Nat),
      firstMaxEntry (b :: xs) =
        some (xs.foldl (fun best p => if best.2 < p.2 then p else best) b) := by
  intro xs
  induction xs with
  | nil =>
    intro b
    rw [firstMaxEntry, List.find?_cons_of_pos _ (by simp)]
    rfl
  | cons p rest ih =>
    intro b
    rw [List.foldl_cons]
    by_cases hp : b.2 < p.2
    · rw [if_pos hp, ← ih p]
      -- drop `b`: it cannot dominate (p beats it), and for the survivors
      -- the dominance predicates over the two lists agree
      rw [firstMaxEntry, firstMaxEntry]
      rw [List.find?_cons_of_neg _ (by
        simp only [List.all_cons, Bool.and_eq_true, decide_eq_true_eq]
        intro hall
        omega)]
      apply find?_congr
      intro x _
      rw [Bool.eq_iff_iff]
      simp only [List.all_cons, Bool.and_eq_true, decide_eq_true_eq]
      constructor
      · intro hall
        exact hall.2
      · intro hall
        obtain ⟨h1, h2⟩ := hall
        exact ⟨by omega, h1, h2⟩
    · rw [if_neg hp, ← ih b]
      have hple : p.2 ≤ b.2 := by omega
      rw [firstMaxEntry, firstMaxEntry]
      have hpt : ∀ x : String × Nat,
          ((b :: p :: rest).all (fun q => decide (q.2 ≤ x.2))) =
          ((b :: rest).all (fun q => decide (q.2 ≤ x.2))) := by
        intro x
        rw [Bool.eq_iff_iff]
        simp only [List.all_cons, Bool.and_eq_true, decide_eq_true_eq]
        constructor
        · intro hall
          exact ⟨hall.1, hall.2.2⟩
        · intro hall
          obtain ⟨h1, h2⟩ := hall
          exact ⟨h1, by omega, h2⟩
      rw [find?_congr (fun x _ => hpt x)]
      by_cases hb : ((b :: rest).all (fun q => decide (q.2 ≤ b.2))) = true
      · rw [List.find?_cons_of_pos _ (by exact hb),
          List.find?_cons_of_pos _ (by exact hb)]
      · have hpfalse : ¬ ((b :: rest).all (fun q => decide (q.2 ≤ p.2))) = true := by
          intro hptrue
          -- p would dominate with p.2 ≤ b.2, forcing p.2 = b.2 and hence
          -- b dominating as well, contradicting hb
          apply hb
          simp only [List.all_cons, Bool.and_eq_true, decide_eq_true_eq] at hptrue ⊢
          obtain ⟨hbp, hrest⟩ := hptrue
          refine ⟨by omega, ?_⟩
          rw [List.all_eq_true] at hrest ⊢
          intro x hx
          have := hrest x hx
          simp only [decide_eq_true_eq] at this ⊢
          omega
        rw [List.find?_cons_of_neg _ (by exact hb),
          List.find?_cons_of_neg _ (by exact hpfalse),
          List.find?_cons_of_neg _ (by exact hb)]

theorem maxByCountFirst_eq_firstMax (l : List (String × Nat)) (h : l ≠ []) :
    maxByCountFirst l = (firstMaxEntry l).map Prod.fst := by
  cases l with
  | nil => exact absurd rfl h
  | cons x xs =>
    rw [maxByCountFirst, foldl_max_eq_firstMax xs x]
    rfl

theorem bump_ne_nil (d : List (String × Nat)) (k : String) : bump d k ≠ [] := by
  unfold bump
  split
  · next hany =>
    intro hnil
    rw [List.map_eq_nil_iff] at hnil
    rw [hnil] at hany
    simp at hany
  · simp

theorem foldl_bump_ne_nil (f : SourceMetadata → String) :
    ∀ (vals : List SourceMetadata) (acc : List (String × Nat)),
      vals ≠ [] ∨ acc ≠ [] →
      vals.foldl (fun d s => bump d (f s)) acc ≠ [] := by
  intro vals
  induction vals with
  | nil =>
    intro acc h
    rcases h with h | h
    · exact absurd rfl h
    · simpa using h
  | cons v vals ih =>
    intro acc _
    rw [List.foldl_cons]
    exact ih _ (Or.inr (bump_ne_nil acc (f v)))

/-- Claim C9: on every registry with at least one source,
`get_source_statistics` reports as `most_common_domain` and
`most_common_author` exactly the FIRST entry (in insertion order of the
counting dictionaries) whose occurrence count is maximal — Python's
`max` with a key keeps the incumbent on ties, so ties break to the
first-encountered entry, not lexicographically. -/
theorem claim_C9 (m : Manager) (hne : m.sources ≠ []) :
    (getSourceStatistics m).mostCommonDomain =
      (firstMaxEntry (getSourceStatistics m).domains).map Prod.fst ∧
    (getSourceStatistics m).mostCommonAuthor =
      (firstMaxEntry (getSourceStatistics m).authors).map Prod.fst := by
  have hvals : m.sources.map Prod.snd ≠ [] := by
    intro hnil
    rw [List.map_eq_nil_iff] at hnil
    exact hne hnil
  have hdom : (m.sources.map Prod.snd).foldl
      (fun d s => bump d s.domain) [] ≠ [] :=
    foldl_bump_ne_nil _ _ _ (Or.inl hvals)
  have haut : (m.sources.map Prod.snd).foldl
      (fun d s => bump d s.author) [] ≠ [] :=
    foldl_bump_ne_nil _ _ _ (Or.inl hvals)
  constructor
  · show (if ((m.sources.map Prod.snd).foldl
        (fun d s => bump d s.domain) []).isEmpty then none
      else maxByCountFirst ((m.sources.map Prod.snd).foldl
        (fun d s => bump d s.domain) [])) = _
    rw [if_neg (by simp [List.isEmpty_iff, hdom])]
    exact maxByCountFirst_eq_firstMax _ hdom
  · show (if ((m.sources.map Prod.snd).foldl
        (fun d s => bump d s.author) []).isEmpty then none
      else maxByCountFirst ((m.sources.map Prod.snd).foldl
        (fun d s => bump d s.author) [])) = _
    rw [if_neg (by simp [List.isEmpty_iff, haut])]
    exact maxByCountFirst_eq_firstMax _ haut

/-- Four-source registry with a 2–2 tie between `a.com` and `b.com`
(insertion order: `a.com` first). -/
def c9Manager : Manager :=
  (addSourceBang
    (addSourceBang
      (addSourceBang
        (addSourceBang emptyManager "https://a.com/1" "T One" "P" none "webpage" "d").1
        "https://b.com/2" "T Two" "Q" none "webpage" "d").1
      "https://a.com/3" "T Three" "P" none "webpage" "d").1
    "https://b.com/4" "T Four" "R" none "webpage" "d").1

/-- Witness for `claim_C9` on the tied registry `c9Manager`; the
first-encountered maximal entry wins. -/
theorem claim_C9_witness :
    (getSourceStatistics c9Manager).mostCommonDomain =
      (firstMaxEntry (getSourceStatistics c9Manager).domains).map Prod.fst :=
  (claim_C9 c9Manager (by decide)).1

/-! ## Claim C4 — registry identifiers: uniqueness and suffixing -/

theorem strLengthMk (l : List Char) : (String.mk l).length = l.length := rfl

theorem strDataMk (l : List Char) : (String.mk l).data = l := rfl

theorem decDigits_succ (fuel n : Nat) :
    decDigits (fuel + 1) (n + 1) = ((n + 1) % 10) :: decDigits fuel ((n + 1) / 10) := rfl

theorem decDigits_lt (fuel : Nat) :
    ∀ (n : Nat), ∀ d ∈ decDigits fuel n, d < 10 := by
  induction fuel with
  | zero => intro n d hd; simp [decDigits] at hd
  | succ fuel ih =>
    intro n d hd
    cases n with
    | zero => simp [decDigits] at hd
    | succ n =>
      rw [decDigits_succ] at hd
      rcases List.mem_cons.mp hd with heq | hmem
      · subst heq
        exact Nat.mod_lt _ (by omega)
      · exact ih _ d hmem

/-- Value of a little-endian base-10 digit list. -/
def fromDigits : List Nat → Nat
  | [] => 0
  | d :: rest => d + 10 * fromDigits rest

theorem fromDigits_decDigits :
    ∀ (fuel n : Nat), n ≤ fuel → fromDigits (decDigits fuel n) = n := by
  intro fuel
  induction fuel with
  | zero =>
    intro n h
    have : n = 0 := by omega
    subst this
    rfl
  | succ fuel ih =>
    intro n h
    cases n with
    | zero => rfl
    | succ n =>
      rw [decDigits_succ, fromDigits]
      rw [ih ((n + 1) / 10) (by omega)]
      omega

theorem digitChar_inj : ∀ d₁ < 10, ∀ d₂ < 10,
    digitChar d₁ = digitChar d₂ → d₁ = d₂ := by decide

theorem map_digitChar_inj :
    ∀ (l₁ l₂ : List Nat), (∀ d ∈ l₁, d < 10) → (∀ d ∈ l₂, d < 10) →
      l₁.map digitChar = l₂.map digitChar → l₁ = l₂ := by
  intro l₁
  induction l₁ with
  | nil =>
    intro l₂ _ _ h
    cases l₂ with
    | nil => rfl
    | cons e l' => simp at h
  | cons d l ih =>
    intro l₂ h1 h2 h
    cases l₂ with
    | nil => simp at h
    | cons e l' =>
      simp only [List.map_cons, List.cons.injEq] at h
      have hde := digitChar_inj d (h1 d (by simp)) e (h2 e (by simp)) h.1
      rw [hde,
        ih l' (fun x hx => h1 x (by simp [hx])) (fun x hx => h2 x (by simp [hx])) h.2]

theorem natRepr_inj {a b : Nat} (ha : 0 < a) (hb : 0 < b)
    (h : natRepr a = natRepr b) : a = b := by
  unfold natRepr at h
  rw [if_neg (by omega), if_neg (by omega)] at h
  have hdata := congrArg String.data h
  rw [strDataMk, strDataMk] at hdata
  have hrev := List.reverse_injective hdata
  have hmap := map_digitChar_inj _ _ (decDigits_lt a a) (decDigits_lt b b) hrev
  have hfrom := congrArg fromDigits hmap
  rwa [fromDigits_decDigits a a (le_refl a),
    fromDigits_decDigits b b (le_refl b)] at hfrom

theorem natRepr_length_pos (n : Nat) : 0 < (natRepr (n + 1)).length := by
  unfold natRepr
  rw [if_neg (by omega), strLengthMk, List.length_reverse, List.length_map,
    decDigits_succ]
  simp

theorem candidateId_inj (base : String) : Function.Injective (candidateId base) := by
  intro i j h
  have hu : ("_" : String).data = ['_'] := rfl
  match i, j with
  | 0, 0 => rfl
  | 0, j + 1 =>
    exfalso
    have hlen := congrArg String.length h
    rw [candidateId, candidateId, String.length_append, String.length_append] at hlen
    have h1 : ("_" : String).length = 1 := rfl
    have h2 := natRepr_length_pos j
    omega
  | i + 1, 0 =>
    exfalso
    have hlen := congrArg String.length h
    rw [candidateId, candidateId, String.length_append, String.length_append] at hlen
    have h1 : ("_" : String).length = 1 := rfl
    have h2 := natRepr_length_pos i
    omega
  | i + 1, j + 1 =>
    have hdata := congrArg String.data h
    simp only [candidateId, String.data_append, List.append_assoc, hu] at hdata
    have h2 := List.append_cancel_left hdata
    simp only [List.cons_append, List.nil_append, List.cons.injEq, true_and] at h2
    have h3 := natRepr_inj (by omega) (by omega) (String.ext h2)
    omega

theorem contains_true_iff (l : List String) (s : String) :
    l.contains s = true ↔ s ∈ l := by
  constructor
  · exact fun h => List.mem_of_elem_eq_true h
  · exact fun h => List.elem_eq_true_of_mem h

theorem exists_free_candidate (base : String) (taken : List String) :
    ∃ n, n ≤ taken.length ∧ taken.contains (candidateId base n) = false := by
  by_contra hcon
  push_neg at hcon
  have hall : ∀ n ∈ List.range (taken.length + 1), candidateId base n ∈ taken := by
    intro n hn
    rw [List.mem_range] at hn
    have hne := hcon n (by omega)
    rw [← contains_true_iff]
    cases hc : taken.contains (candidateId base n) with
    | false => exact absurd hc hne
    | true => rfl
  have hnodup : ((List.range (taken.length + 1)).map (candidateId base)).Nodup :=
    (List.nodup_range _).map (candidateId_inj base)
  have hsub : ((List.range (taken.length + 1)).map (candidateId base)).toFinset ⊆
      taken.toFinset := by
    intro x hx
    rw [List.mem_toFinset] at hx ⊢
    obtain ⟨n, hn, hxn⟩ := List.mem_map.mp hx
    rw [← hxn]
    exact hall n hn
  have hcard1 : ((List.range (taken.length + 1)).map (candidateId base)).toFinset.card =
      taken.length + 1 := by
    rw [List.toFinset_card_of_nodup hnodup, List.length_map, List.length_range]
  have hcard2 := Finset.card_le_card hsub
  have hcard3 := List.toFinset_card_le taken
  omega

theorem freeFrom_spec (base : String) (taken : List String) :
    ∀ (fuel start : Nat),
      (∃ n, start ≤ n ∧ n < start + fuel ∧
        taken.contains (candidateId base n) = false) →
      taken.contains (candidateId base (freeFrom base taken fuel start)) = false ∧
      start ≤ freeFrom base taken fuel start ∧
      (∀ m, start ≤ m → m < freeFrom base taken fuel start →
        taken.contains (candidateId base m) = true) := by
  intro fuel
  induction fuel with
  | zero =>
    intro start h
    obtain ⟨n, h1, h2, -⟩ := h
    omega
  | succ fuel ih =>
    intro start h
    obtain ⟨n, h1, h2, h3⟩ := h
    rw [freeFrom]
    by_cases hc : taken.contains (candidateId base start) = true
    · rw [if_pos hc]
      have hnext : ∃ n', start + 1 ≤ n' ∧ n' < (start + 1) + fuel ∧
          taken.contains (candidateId base n') = false := by
        refine ⟨n, ?_, by omega, h3⟩
        rcases Nat.eq_or_lt_of_le h1 with heq | hlt
        · exfalso
          rw [heq] at hc
          rw [hc] at h3
          exact absurd h3 (by simp)
        · omega
      obtain ⟨hf, hs, hmin⟩ := ih (start + 1) hnext
      refine ⟨hf, by omega, ?_⟩
      intro m hm1 hm2
      rcases Nat.eq_or_lt_of_le hm1 with heq | hlt
      · rw [← heq]
        exact hc
      · exact hmin m (by omega) hm2
    · rw [if_neg hc]
      have hfalse : taken.contains (candidateId base start) = false := by
        cases hb : taken.contains (candidateId base start) with
        | false => rfl
        | true => exact absurd hb hc
      exact ⟨hfalse, le_refl start, fun m hm1 hm2 => by omega⟩

theorem generateSourceId_spec (takenKeys : List String) (host title : String) :
    ∃ n,
      generateSourceId takenKeys host title = candidateId (codeBaseId host title) n ∧
      takenKeys.contains (candidateId (codeBaseId host title) n) = false ∧
      ∀ m, m < n → takenKeys.contains (candidateId (codeBaseId host title) m) = true := by
  obtain ⟨n0, hn0le, hn0free⟩ := exists_free_candidate (codeBaseId host title) takenKeys
  obtain ⟨hf, -, hmin⟩ := freeFrom_spec (codeBaseId host title) takenKeys
    (takenKeys.length + 1) 0 ⟨n0, by omega, by omega, hn0free⟩
  exact ⟨freeFrom (codeBaseId host title) takenKeys (takenKeys.length + 1) 0,
    rfl, hf, fun m hm => hmin m (by omega) hm⟩

theorem addSourceBang_nodup (m : Manager) (url title author : String)
    (pd : Option String) (ct now : String)
    (hm : (m.sources.map Prod.fst).Nodup) :
    (((addSourceBang m url title author pd ct now).1).sources.map Prod.fst).Nodup := by
  unfold addSourceBang addSource
  cases he : netlocE url with
  | error e => exact hm
  | ok domain => exact keys_insert_nodup _ _ hm

theorem applyAddSources_nodup (ops : List AddOp) :
    ((applyAddSources ops).sources.map Prod.fst).Nodup := by
  suffices h : ∀ (ops' : List AddOp) (m : Manager), (m.sources.map Prod.fst).Nodup →
      (((ops'.foldl (fun m' op =>
        (addSourceBang m' op.url op.title op.author op.publishDate op.contentType
          op.now).1) m).sources.map Prod.fst)).Nodup by
    exact h ops emptyManager (by simp [emptyManager])
  intro ops'
  induction ops' with
  | nil => intro m hm; simpa using hm
  | cons op ops' ih =>
    intro m hm
    rw [List.foldl_cons]
    exact ih _ (addSourceBang_nodup _ _ _ _ _ _ _ hm)

/-- Claim C4, as stated, is false on three counts.  (1) Base-id
derivation: the claim (and spec §4.6) strips only a LEADING `"www."`
from the host, but the source (citation_manager.py line 171,
`domain.replace("www.", "")`) removes EVERY occurrence: for
`url = "https://a.www.b/x"`, `title = "T"` there is no collision at all,
yet the assigned id is `"a.b_t"` while the claim's derivation gives
`"a.www.b_t"`.  (2) The host is not the raw text between `"//"` and the
next `/`: `urlsplit` strips tab/CR/LF, so `"https://exa\tmple.com/p"`
registers under `"example.com_t"`, not `"exa\tmple.com_t"`.  (3)
`add_source` is not total: at `url = "http://["` the
`urlparse(url).netloc` on line 45 raises `ValueError("Invalid IPv6
URL")` and no source is registered. -/
theorem claim_C4_counterexample :
    netlocE "https://a.www.b/x" = Except.ok "a.www.b" ∧
    addSourceId emptyManager "https://a.www.b/x" "T" "Unknown" none "webpage" "d" =
      some "a.b_t" ∧
    claimBaseId "a.www.b" "T" = "a.www.b_t" ∧
    (some "a.b_t" : Option String) ≠ some "a.www.b_t" ∧
    addSourceId emptyManager "https://exa\tmple.com/p" "T" "Unknown" none "webpage"
      "d" = some "example.com_t" ∧
    addSourceId emptyManager "http://[" "T" "Unknown" none "webpage" "d" =
      none := by decide

/-- Claim C4, amended: after any sequence of attempted `add_source` calls
the registry maps pairwise-distinct identifiers to sources; on a URL
whose host parses as `host`, the assigned id is the first free candidate
`base`, `base_1`, `base_2`, … over the derived base identifier — which
joins the parsed host with EVERY occurrence of `"www."` removed (not
only a leading one) to the first three lower-cased punctuation-stripped
title tokens — while a URL whose host does not parse makes `add_source`
raise with nothing registered; registering `https://example.com/a` with
title `"Hello World Example"` twice yields
`example.com_hello_world_example` and
`example.com_hello_world_example_1`. -/
theorem claim_C4_amended :
    (∀ ops : List AddOp, ((applyAddSources ops).sources.map Prod.fst).Nodup) ∧
    (∀ (m : Manager) (url host title author : String) (pd : Option String)
        (ct now : String),
      netlocE url = Except.ok host →
      ∃ n,
        addSourceId m url title author pd ct now =
          some (candidateId (codeBaseId host title) n) ∧
        (m.sources.map Prod.fst).contains (candidateId (codeBaseId host title) n) =
          false ∧
        ∀ k, k < n →
          (m.sources.map Prod.fst).contains (candidateId (codeBaseId host title) k) =
            true) ∧
    addSourceId emptyManager "https://example.com/a" "Hello World Example"
      "Unknown" none "webpage" "2026-10-12" =
      some "example.com_hello_world_example" ∧
    addSourceId
      (addSourceBang emptyManager "https://example.com/a" "Hello World Example"
        "Unknown" none "webpage" "2026-10-12").1
      "https://example.com/a" "Hello World Example"
      "Unknown" none "webpage" "2026-10-12" =
      some "example.com_hello_world_example_1" := by
  refine ⟨applyAddSources_nodup, ?_, by decide, by decide⟩
  intro m url host title author pd ct now hu
  obtain ⟨n, h1, h2, h3⟩ := generateSourceId_spec (m.sources.map Prod.fst) host title
  refine ⟨n, ?_, h2, h3⟩
  unfold addSourceId addSource
  rw [hu]
  show some (generateSourceId (m.sources.map Prod.fst) host title) = _
  rw [h1]

/-- Witness for `claim_C4_amended`: a fresh registration on an empty
registry, with the host hypothesis discharged concretely. -/
theorem claim_C4_witness :
    ∃ n,
      addSourceId emptyManager "https://e.org/a" "My T" "Unknown" none "webpage" "d" =
        some (candidateId (codeBaseId "e.org" "My T") n) ∧
      (emptyManager.sources.map Prod.fst).contains
        (candidateId (codeBaseId "e.org" "My T") n) = false ∧
      ∀ k, k < n →
        (emptyManager.sources.map Prod.fst).contains
          (candidateId (codeBaseId "e.org" "My T") k) = true :=
  claim_C4_amended.2.1 emptyManager "https://e.org/a" "e.org" "My T" "Unknown" none
    "webpage" "d" (by decide)

end GistAgent
